import Mathlib

/-!
Verification of the `ResourcesContextProvider` logic of the egeria-react-ui
repository: a shallow embedding of the JavaScript functions `updateGens`,
`removeGen`, `changeFocusResource`, `clearFocusResource`,
`compareConfigurations` and `flattenPropertyPath`, together with proofs of
the behavioural claims about them.

JavaScript values are modelled by the inductive type `JValue` (JSON values
plus `undefined`; numbers are modelled as integers, which covers every value
the claims exercise).  JavaScript objects are modelled as association lists
in insertion order, matching `Object.keys` enumeration order.  Operations
that would throw a `TypeError` at runtime are modelled in `Except Unit`.
-/

set_option autoImplicit false

namespace Egeria

/-- A JavaScript value: JSON values plus `undefined`. -/
inductive JValue where
  | undefined
  | null
  | bool (b : Bool)
  | num (n : Int)
  | str (s : String)
  | arr (elems : List JValue)
  | obj (fields : List (String × JValue))

/-- The JavaScript `typeof` operator restricted to `JValue`. -/
def typeOf : JValue → String
  | .undefined => "undefined"
  | .null => "object"
  | .bool _ => "boolean"
  | .num _ => "number"
  | .str _ => "string"
  | .arr _ => "object"
  | .obj _ => "object"

/-- JavaScript strict equality on the values that can occur in the scalar
comparison branch.  Two distinct objects or arrays are never strictly equal
(reference semantics); in the embedded code strict equality is only applied
when at least one side is a primitive, so the catch-all `false` is faithful. -/
def jsStrictEq : JValue → JValue → Bool
  | .undefined, .undefined => true
  | .null, .null => true
  | .bool a, .bool b => a == b
  | .num a, .num b => a == b
  | .str a, .str b => a == b
  | _, _ => false

/-! ### JavaScript object primitives

JavaScript objects (and the `guidToGenId` map) are association lists in key
insertion order.  `lookupF` is property read, `setField` is property write
(overwrite in place, or append for a fresh key, as JS does), `mapDelete` is
the `delete` operator, and `objAssign` is `Object.assign(target, update)`.
-/

/-- Property read on an association list: the first entry with the key. -/
def lookupF {α : Type} (l : List (String × α)) (k : String) : Option α :=
  (l.find? (fun kv => kv.1 == k)).map (·.2)

/-- Property write: overwrite an existing key in place (keeping its
position in enumeration order, as JS does), else append the new key. -/
def setField {α : Type} : List (String × α) → String → α → List (String × α)
  | [], k, v => [(k, v)]
  | kv :: rest, k, v =>
    if kv.1 == k then (k, v) :: rest else kv :: setField rest k v

/-- The JavaScript `delete` operator on an object property. -/
def mapDelete {α : Type} (l : List (String × α)) (k : String) :
    List (String × α) :=
  l.filter (fun kv => !(kv.1 == k))

/-- `Object.assign(target, update)`: copy every property of `update` onto
`target` in enumeration order (shallow, last write wins). -/
def objAssign {α : Type} (t u : List (String × α)) : List (String × α) :=
  u.foldl (fun acc kv => setField acc kv.1 kv.2) t

/-- `Object.keys`: enumeration keys of a value.  Throws a `TypeError` on
`null` and `undefined`; on strings and arrays the keys are the element
indices; on other primitives there are no keys. -/
def objKeys : JValue → Except Unit (List String)
  | .undefined => .error ()
  | .null => .error ()
  | .bool _ => .ok []
  | .num _ => .ok []
  | .str s => .ok ((List.range s.length).map toString)
  | .arr elems => .ok ((List.range elems.length).map toString)
  | .obj fields => .ok (fields.map Prod.fst)

/-- Parse a string that is a canonical array index (as JS property lookup
does: `"0"`, `"1"`, ... but not `"00"`). -/
def strToIndex (k : String) : Option Nat :=
  match k.toNat? with
  | some i => if toString i = k then some i else none
  | none => none

/-- JavaScript property access `v[k]`, returning `undefined` for a missing
property.  (In the embedded code it is only applied to values whose keys
were successfully enumerated, so no `TypeError` case is needed here.) -/
def jget : JValue → String → JValue
  | .obj fields, k =>
    match lookupF fields k with
    | some v => v
    | none => .undefined
  | .arr elems, k =>
    if k = "length" then .num elems.length
    else
      match strToIndex k with
      | some i =>
        match elems[i]? with
        | some v => v
        | none => .undefined
      | none => .undefined
  | .str s, k =>
    if k = "length" then .num s.length
    else
      match strToIndex k with
      | some i =>
        match s.data[i]? with
        | some c => .str (String.singleton c)
        | none => .undefined
      | none => .undefined
  | _, _ => .undefined

/-- Insert a string into a lexicographically sorted list (helper embedding
the default `Array.prototype.sort()` comparison; since duplicate keys are
identical strings, stability questions do not arise). -/
def insertSorted (s : String) : List String → List String
  | [] => [s]
  | t :: ts => if s ≤ t then s :: t :: ts else t :: insertSorted s ts

/-- `Array.prototype.sort()` with the default string comparator. -/
def sortStrings : List String → List String
  | [] => []
  | s :: ss => insertSorted s (sortStrings ss)

/-! ### The configuration comparator -/

/-- The fixed exclusion list of `compareConfigurations`. -/
def excludeProps : List String := ["class"]

/-- `flattenPropertyPath`: join a non-empty property path with dots;
the source returns `null` for an absent or empty path. -/
def flattenPropertyPath : List String → Option String
  | [] => none
  | p :: rest => some (rest.foldl (fun flatPath q => flatPath ++ "." ++ q) p)

/-- The aggregated key list of `compareConfigurations`:
`Object.assign([], activeConfigPropNames, storedConfigPropNames)` copies the
index properties of both arrays onto a fresh array, the second argument
first, so position `i` holds the stored name when `i` is in range for it and
the active name otherwise. -/
def objAssignKeys (activeNames storedNames : List String) : List String :=
  storedNames ++ activeNames.drop storedNames.length

/-- A value found by property lookup in a field list is smaller than the
field list. -/
theorem sizeOf_lookupF_lt {fs : List (String × JValue)} {k : String}
    {v : JValue} (h : lookupF fs k = some v) : sizeOf v < sizeOf fs := by
  induction fs with
  | nil => simp [lookupF] at h
  | cons kv rest ih =>
    rw [lookupF, List.find?] at h
    by_cases hk : kv.1 == k
    · simp only [hk, Option.map_some'] at h
      cases kv with
      | mk k1 v1 =>
        simp only [Option.some.injEq] at h
        subst h
        simp only [List.cons.sizeOf_spec, Prod.mk.sizeOf_spec]
        omega
    · simp only [hk] at h
      have := ih h
      simp only [List.cons.sizeOf_spec]
      omega

/-- An element found by index in an element list is smaller than the list. -/
theorem sizeOf_get?_lt {elems : List JValue} {i : Nat} {v : JValue}
    (h : elems[i]? = some v) : sizeOf v < sizeOf elems := by
  have hm : v ∈ elems := by
    have : elems.get? i = some v := by rw [List.get?_eq_getElem?]; exact h
    exact List.get?_mem this
  exact List.sizeOf_lt_of_mem hm

/-- The recursion of `compareConfigurations` descends into an object-typed
property value of `activeConfig`, which is strictly smaller. -/
theorem sizeOf_jget_lt {v : JValue} {k : String}
    (h : typeOf (jget v k) = "object") : sizeOf (jget v k) < sizeOf v := by
  cases v with
  | undefined => simp [jget, typeOf] at h
  | null => simp [jget, typeOf] at h
  | bool b => simp [jget, typeOf] at h
  | num n => simp [jget, typeOf] at h
  | str s =>
    rw [jget] at h ⊢
    by_cases hl : k = "length"
    · simp [hl, typeOf] at h
    · simp only [hl, if_false] at h ⊢
      cases hi : strToIndex k with
      | none => simp [hi, typeOf] at h
      | some i =>
        simp only [hi] at h ⊢
        cases hc : s.data[i]? with
        | none => simp [hc, typeOf] at h
        | some c => simp [hc, typeOf] at h
  | arr elems =>
    rw [jget] at h ⊢
    by_cases hl : k = "length"
    · simp [hl, typeOf] at h
    · simp only [hl, if_false] at h ⊢
      cases hi : strToIndex k with
      | none => simp [hi, typeOf] at h
      | some i =>
        simp only [hi] at h ⊢
        cases hc : elems[i]? with
        | none => simp [hc, typeOf] at h
        | some w =>
          simp only [hc]
          have := sizeOf_get?_lt hc
          simp only [JValue.arr.sizeOf_spec]
          omega
  | obj fields =>
    rw [jget] at h ⊢
    cases hl : lookupF fields k with
    | none => simp [hl, typeOf] at h
    | some w =>
      simp only [hl]
      have := sizeOf_lookupF_lt hl
      simp only [JValue.obj.sizeOf_spec]
      omega

mutual

/-- `compareConfigurations(storedConfig, activeConfig, propertyPath, mpn)`:
returns the `matched` flag together with the final contents of the
mismatched-property-names array `mpn` (an in-out parameter in the source),
or `.error ()` when the source would throw a `TypeError` (from
`Object.keys` applied to `null` or `undefined`). -/
def compareConfigurations (storedConfig activeConfig : JValue)
    (propertyPath mpn : List String) : Except Unit (Bool × List String) :=
  match objKeys activeConfig with
  | .error e => .error e
  | .ok activeConfigPropNames =>
    match objKeys storedConfig with
    | .error e => .error e
    | .ok storedConfigPropNames =>
      comparePropsGo storedConfig activeConfig propertyPath
        (sortStrings (objAssignKeys activeConfigPropNames storedConfigPropNames))
        (true, mpn)
  termination_by (sizeOf activeConfig, 1, 0)
  decreasing_by
  · apply Prod.Lex.right
    exact Prod.Lex.left _ _ (by omega)

/-- The `forEach` loop of `compareConfigurations` over the sorted key list;
the accumulator carries the `matched` flag and the mismatched-property-names
array `mpn`. -/
def comparePropsGo (storedConfig activeConfig : JValue)
    (propertyPath : List String) :
    List String → Bool × List String → Except Unit (Bool × List String)
  | [], acc => .ok acc
  | propName :: rest, acc =>
    if propName ∈ excludeProps then
      comparePropsGo storedConfig activeConfig propertyPath rest acc
    else if h : typeOf (jget activeConfig propName) = "object" then
      match compareConfigurations (jget storedConfig propName)
          (jget activeConfig propName) (propertyPath ++ [propName]) acc.2 with
      | .error e => .error e
      | .ok (m, mpn2) =>
        comparePropsGo storedConfig activeConfig propertyPath rest
          (acc.1 && m, mpn2)
    else if jsStrictEq (jget storedConfig propName) (jget activeConfig propName) then
      comparePropsGo storedConfig activeConfig propertyPath rest acc
    else
      comparePropsGo storedConfig activeConfig propertyPath rest
        (false, acc.2 ++ [(flattenPropertyPath (propertyPath ++ [propName])).getD "null"])
  termination_by keys _ => (sizeOf activeConfig, 0, keys.length)
  decreasing_by
  · exact Prod.Lex.right _ (Prod.Lex.right _ (Nat.lt_succ_self _))
  · exact Prod.Lex.left _ _ (sizeOf_jget_lt h)
  · exact Prod.Lex.right _ (Prod.Lex.right _ (Nat.lt_succ_self _))
  · exact Prod.Lex.right _ (Prod.Lex.right _ (Nat.lt_succ_self _))
  · exact Prod.Lex.right _ (Prod.Lex.right _ (Nat.lt_succ_self _))

end

/-! ### The resource graph store

`gens` is the ordered list of generations; `guidToGenId` maps a GUID to the
1-based number of the generation holding it.  A resource or relationship
entity is a JavaScript object, i.e. an association list of fields.
-/

/-- A resource or relationship entity: a JavaScript object. -/
abbrev Entity := List (String × JValue)

/-- The index from GUIDs to 1-based generation numbers. -/
abbrev GuidMap := List (String × Nat)

/-- One generation: the request summary that created it plus the maps of
resources and relationships first observed at that step. -/
structure Gen where
  requestSummary : String
  resources : List (String × Entity)
  relationships : List (String × Entity)

/-- `createEmptyGen(requestSummary)`. -/
def createEmptyGen (requestSummary : String) : Gen :=
  { requestSummary := requestSummary, resources := [], relationships := [] }

/-- The `update_objects` argument of `updateGens`: maps of resources and
relationships to be located and updated or added, keyed by GUID in
enumeration order. -/
structure UpdateObjects where
  resources : List (String × Entity)
  relationships : List (String × Entity)

/-- The local variables of one `updateGens` call while its two `forEach`
loops run: the clones of `gens` and `guidToGenId`, the `addingGen` flag and
the staged new generation `ad_gen`. -/
structure UGState where
  gens_clone : List Gen
  map_clone : GuidMap
  addingGen : Bool
  ad_gen : Gen

/-- Store an entity under a key in the resources map of a generation. -/
def putResource (gen : Gen) (k : String) (e : Entity) : Gen :=
  { gen with resources := setField gen.resources k e }

/-- Store an entity under a key in the relationships map of a generation. -/
def putRelationship (gen : Gen) (k : String) (e : Entity) : Gen :=
  { gen with relationships := setField gen.relationships k e }

/-- One iteration of the resources loop of `updateGens` for the pair
`(guid, update_objects.resources[guid])`.  A GUID already present in
`guidToGenId` has the update merged into its existing entity in its
generation (`Object.assign(existingResource, update)`); accessing a
generation or entity that is not there models the `TypeError` the source
would throw.  A new GUID is staged into `ad_gen` with its `gen` field set,
and indexed in the map clone. -/
def resStep (guidToGenId : GuidMap) (ad_genId : Nat) (st : UGState)
    (kv : String × Entity) : Except Unit UGState :=
  match lookupF guidToGenId kv.1 with
  | some ex_genId =>
    match st.gens_clone[ex_genId - 1]? with
    | none => .error ()
    | some ex_gen =>
      match lookupF ex_gen.resources kv.1 with
      | none => .error ()
      | some existingResource =>
        let mergedResource := objAssign existingResource kv.2
        let updatedGen := putResource ex_gen kv.1 mergedResource
        .ok { st with gens_clone := st.gens_clone.set (ex_genId - 1) updatedGen }
  | none =>
    let newResource := setField kv.2 "gen" (.num ad_genId)
    let newAdGen := putResource st.ad_gen kv.1 newResource
    .ok { st with
      addingGen := true,
      ad_gen := newAdGen,
      map_clone := setField st.map_clone kv.1 ad_genId }

/-- One iteration of the relationships loop of `updateGens`; identical to
`resStep` with the relationships map in place of the resources map. -/
def relStep (guidToGenId : GuidMap) (ad_genId : Nat) (st : UGState)
    (kv : String × Entity) : Except Unit UGState :=
  match lookupF guidToGenId kv.1 with
  | some ex_genId =>
    match st.gens_clone[ex_genId - 1]? with
    | none => .error ()
    | some ex_gen =>
      match lookupF ex_gen.relationships kv.1 with
      | none => .error ()
      | some existingRelationship =>
        let mergedRelationship := objAssign existingRelationship kv.2
        let updatedGen := putRelationship ex_gen kv.1 mergedRelationship
        .ok { st with gens_clone := st.gens_clone.set (ex_genId - 1) updatedGen }
  | none =>
    let newRelationship := setField kv.2 "gen" (.num ad_genId)
    let newAdGen := putRelationship st.ad_gen kv.1 newRelationship
    .ok { st with
      addingGen := true,
      ad_gen := newAdGen,
      map_clone := setField st.map_clone kv.1 ad_genId }

/-- A `forEach` loop over key/entity pairs threading the `updateGens` local
state, stopping at the first thrown `TypeError`. -/
def procList (step : UGState → String × Entity → Except Unit UGState) :
    List (String × Entity) → UGState → Except Unit UGState
  | [], st => .ok st
  | kv :: rest, st =>
    match step st kv with
    | .error e => .error e
    | .ok st2 => procList step rest st2

/-- `updateGens(update_objects, requestSummary)` as a function of the
current `gens` and `guidToGenId` state: runs the resources loop then the
relationships loop; if any GUID was new, the single staged generation is
appended (the assignment `gens_clone[ad_genId - 1] = ad_gen` at index
`gens.length`) and the map clone replaces the index, otherwise `gens` keeps
its length and the index is left as it was. -/
def updateGens (gens : List Gen) (guidToGenId : GuidMap)
    (update_objects : UpdateObjects) (requestSummary : String) :
    Except Unit (List Gen × GuidMap) :=
  match procList (resStep guidToGenId (gens.length + 1))
      update_objects.resources
      { gens_clone := gens, map_clone := guidToGenId, addingGen := false,
        ad_gen := createEmptyGen requestSummary } with
  | .error e => .error e
  | .ok st1 =>
    match procList (relStep guidToGenId (gens.length + 1))
        update_objects.relationships st1 with
    | .error e => .error e
    | .ok st2 =>
      .ok (if st2.addingGen then st2.gens_clone ++ [st2.ad_gen]
             else st2.gens_clone,
           if st2.addingGen then st2.map_clone else guidToGenId)

/-! ### Focus state and generation removal -/

/-- The provider state the remaining operations act on: the generations,
the GUID index and the focus object.  (The sibling server-configuration and
operation-state slots are reset wholesale by these operations and carry no
graph information, so they are not modelled.) -/
structure RState where
  gens : List Gen
  guidToGenId : GuidMap
  focus : Entity

/-- The focus object as every `setFocus` call in the source builds it:
`{ category : ..., guid : ... }`. -/
def focusObj (category guid : String) : Entity :=
  [("category", .str category), ("guid", .str guid)]

/-- Property read on an entity, `undefined` when the field is absent. -/
def entGet (e : Entity) (k : String) : JValue :=
  match lookupF e k with
  | some v => v
  | none => .undefined

/-- Coercion of a value used as a property key, as JavaScript stringifies
it.  In the source the focus `guid` field is always a string. -/
def jvToPropKey : JValue → String
  | .str s => s
  | .undefined => "undefined"
  | .null => "null"
  | .bool b => if b then "true" else "false"
  | .num n => toString n
  | .arr _ => ""
  | .obj _ => "[object Object]"

/-- `clearFocusResource()`: resets category and guid to the empty string
(the server-configuration reset it also performs is not modelled). -/
def clearFocusResource (st : RState) : RState :=
  { st with focus := focusObj "" "" }

/-- The category-specific reload that `changeFocusResource` fires through
the request gateway; the network call itself is an external collaborator. -/
inductive LoadAction where
  | noAction
  | loadPlatform (platformName : JValue)
  | loadServerFromGen (resource : Entity)
  | loadServiceFromGen (resource : Entity)

/-- `changeFocusResource(guid)`: the source first compares `guid` against
`focus.instanceGUID` and deselects on equality; otherwise it looks the GUID
up and fires the category-specific reload (cohort and unknown categories do
nothing).  The synchronous state effect and the initiated load are
returned. -/
def changeFocusResource (st : RState) (guid : String) :
    Except Unit (RState × LoadAction) :=
  if jsStrictEq (.str guid) (entGet st.focus "instanceGUID") then
    .ok (clearFocusResource st, .noAction)
  else
    match lookupF st.guidToGenId guid with
    | none => .ok (st, .noAction)
    | some genId =>
      match st.gens[genId - 1]? with
      | none => .error ()
      | some gen =>
        match lookupF gen.resources guid with
        | none => .error ()
        | some resource =>
          match entGet resource "category" with
          | .str "platform" => .ok (st, .loadPlatform (entGet resource "platformName"))
          | .str "server-instance" => .ok (st, .loadServerFromGen resource)
          | .str "service-instance" => .ok (st, .loadServiceFromGen resource)
          | _ => .ok (st, .noAction)

/-- `removeGen()`: pops the most recent generation (dereferencing the popped
value throws when `gens` is empty), clears the focus when the removed
generation's resources contain the focused guid, and deletes every resource
and relationship key of the removed generation from `guidToGenId`. -/
def removeGen (st : RState) : Except Unit RState :=
  match st.gens.getLast? with
  | none => .error ()
  | some removedGen =>
    let newList := st.gens.dropLast
    let newFocus :=
      if (lookupF removedGen.resources
            (jvToPropKey (entGet st.focus "guid"))).isSome then
        focusObj "" ""
      else st.focus
    let afterResources :=
      (removedGen.resources.map Prod.fst).foldl mapDelete st.guidToGenId
    let newGUIDMap :=
      (removedGen.relationships.map Prod.fst).foldl mapDelete afterResources
    .ok { gens := newList, guidToGenId := newGUIDMap, focus := newFocus }

/-- A generation contains a GUID when it appears among its resources or
relationships. -/
def genContains (gen : Gen) (guid : String) : Prop :=
  guid ∈ gen.resources.map Prod.fst ∨ guid ∈ gen.relationships.map Prod.fst

/-- The index consistency invariant: every indexed GUID maps to the 1-based
number of a generation that actually contains it. -/
def InvMap (gens : List Gen) (guidToGenId : GuidMap) : Prop :=
  ∀ guid gid, lookupF guidToGenId guid = some gid →
    1 ≤ gid ∧ ∃ gen, gens[gid - 1]? = some gen ∧ genContains gen guid

/-- The resource entity stored for `guid` in generation number `gid`. -/
def getRes (gens : List Gen) (gid : Nat) (guid : String) : Option Entity :=
  match gens[gid - 1]? with
  | none => none
  | some gen => lookupF gen.resources guid

/-! ### Lemmas about the object primitives -/

section AssocLemmas

variable {α : Type}

@[simp] theorem lookupF_nil (k : String) :
    lookupF ([] : List (String × α)) k = none := rfl

theorem lookupF_cons (kv : String × α) (l : List (String × α)) (k : String) :
    lookupF (kv :: l) k = if kv.1 = k then some kv.2 else lookupF l k := by
  by_cases h : kv.1 = k
  · simp [lookupF, List.find?_cons, h]
  · simp [lookupF, List.find?_cons, beq_false_of_ne h, h]

theorem lookupF_eq_none_iff (l : List (String × α)) (k : String) :
    lookupF l k = none ↔ k ∉ l.map Prod.fst := by
  induction l with
  | nil => simp
  | cons kv rest ih =>
    rw [lookupF_cons]
    by_cases h : kv.1 = k
    · simp [h]
    · rw [if_neg h, ih]
      simp only [List.map_cons, List.mem_cons, not_or]
      have hne : ¬k = kv.1 := fun e => h e.symm
      tauto

theorem lookupF_isSome_iff (l : List (String × α)) (k : String) :
    (lookupF l k).isSome = true ↔ k ∈ l.map Prod.fst := by
  rw [Option.isSome_iff_ne_none, ne_eq, lookupF_eq_none_iff]
  exact not_not

/-- The characterizing equation of a property write. -/
theorem lookupF_setField (l : List (String × α)) (k k2 : String) (v : α) :
    lookupF (setField l k v) k2 = if k2 = k then some v else lookupF l k2 := by
  induction l with
  | nil =>
    rw [setField, lookupF_cons]
    by_cases h : k2 = k
    · simp [h]
    · simp only [if_neg h]
      rw [if_neg (fun e : k = k2 => h e.symm), lookupF_nil]
  | cons kv rest ih =>
    rw [setField]
    by_cases hk : kv.1 = k
    · rw [if_pos (by simpa using hk), lookupF_cons, lookupF_cons]
      by_cases h2 : k2 = k
      · simp [h2]
      · rw [if_neg (fun e : k = k2 => h2 e.symm), if_neg h2,
          if_neg (fun e : kv.1 = k2 => h2 (e ▸ hk ▸ rfl))]
    · rw [if_neg (by simpa using hk), lookupF_cons, lookupF_cons]
      by_cases hx : kv.1 = k2
      · rw [if_pos hx, if_neg (fun e : k2 = k => hk (hx.trans e)), if_pos hx]
      · rw [if_neg hx, if_neg hx, ih]

theorem lookupF_setField_self (l : List (String × α)) (k : String) (v : α) :
    lookupF (setField l k v) k = some v := by
  rw [lookupF_setField, if_pos rfl]

theorem lookupF_setField_ne (l : List (String × α)) (k k2 : String) (v : α)
    (h : k2 ≠ k) : lookupF (setField l k v) k2 = lookupF l k2 := by
  rw [lookupF_setField, if_neg h]

theorem mem_keys_iff_lookupF (l : List (String × α)) (k : String) :
    k ∈ l.map Prod.fst ↔ (lookupF l k).isSome = true :=
  (lookupF_isSome_iff l k).symm

theorem mem_keys_setField (l : List (String × α)) (k a : String) (v : α) :
    a ∈ (setField l k v).map Prod.fst ↔ a = k ∨ a ∈ l.map Prod.fst := by
  rw [mem_keys_iff_lookupF, mem_keys_iff_lookupF, lookupF_setField]
  by_cases h : a = k
  · simp [h]
  · simp [h]

theorem lookupF_mapDelete (l : List (String × α)) (k k2 : String) :
    lookupF (mapDelete l k) k2 = if k2 = k then none else lookupF l k2 := by
  induction l with
  | nil => simp [mapDelete]
  | cons kv rest ih =>
    rw [mapDelete, List.filter_cons]
    rw [mapDelete] at ih
    by_cases hk : kv.1 = k
    · rw [if_neg (by simp [hk]), ih]
      by_cases h2 : k2 = k
      · simp [h2]
      · rw [if_neg h2, if_neg h2, lookupF_cons,
          if_neg (fun e : kv.1 = k2 => h2 (e ▸ hk ▸ rfl))]
    · rw [if_pos (by simp [hk]), lookupF_cons, lookupF_cons]
      by_cases hx : kv.1 = k2
      · rw [if_pos hx, if_neg (fun e : k2 = k => hk (hx.trans e)), if_pos hx]
      · rw [if_neg hx, ih, if_neg hx]

theorem lookupF_foldl_mapDelete (ks : List String) (l : List (String × α)) (k : String) :
    lookupF (ks.foldl mapDelete l) k = if k ∈ ks then none else lookupF l k := by
  induction ks generalizing l with
  | nil => simp
  | cons k0 rest ih =>
    rw [List.foldl_cons, ih]
    by_cases hmem : k ∈ rest
    · simp [hmem]
    · rw [if_neg hmem, lookupF_mapDelete]
      by_cases h0 : k = k0
      · simp [h0]
      · simp [h0, hmem]

theorem lookupF_objAssign_of_none (t u : List (String × α)) (k : String)
    (h : lookupF u k = none) : lookupF (objAssign t u) k = lookupF t k := by
  induction u generalizing t with
  | nil => rfl
  | cons kv rest ih =>
    rw [lookupF_cons] at h
    by_cases hk : kv.1 = k
    · simp [hk] at h
    · rw [if_neg hk] at h
      rw [objAssign, List.foldl_cons]
      show lookupF (objAssign (setField t kv.1 kv.2) rest) k = lookupF t k
      rw [ih (t := setField t kv.1 kv.2) h,
        lookupF_setField_ne _ _ _ _ (fun e : k = kv.1 => hk e.symm)]

theorem lookupF_objAssign_of_some (t u : List (String × α)) (k : String) (v : α)
    (hnd : (u.map Prod.fst).Nodup) (h : lookupF u k = some v) :
    lookupF (objAssign t u) k = some v := by
  induction u generalizing t with
  | nil => simp at h
  | cons kv rest ih =>
    rw [lookupF_cons] at h
    rw [List.map_cons, List.nodup_cons] at hnd
    rw [objAssign, List.foldl_cons]
    show lookupF (objAssign (setField t kv.1 kv.2) rest) k = some v
    by_cases hk : kv.1 = k
    · rw [if_pos hk] at h
      have hnone : lookupF rest k = none := by
        rw [lookupF_eq_none_iff, ← hk]
        exact hnd.1
      rw [lookupF_objAssign_of_none (setField t kv.1 kv.2) rest k hnone,
        lookupF_setField, if_pos hk.symm]
      exact h
    · rw [if_neg hk] at h
      exact ih hnd.2 h (t := setField t kv.1 kv.2)

end AssocLemmas

/-! ### Lemmas about the update loops -/

section UpdateLemmas

/-- A state property preserved by each loop iteration is preserved by the
whole loop. -/
theorem procList_inv (P : UGState → Prop)
    (step : UGState → String × Entity → Except Unit UGState)
    (hstep : ∀ st kv st2, P st → step st kv = .ok st2 → P st2) :
    ∀ l st st2, P st → procList step l st = .ok st2 → P st2 := by
  intro l
  induction l with
  | nil =>
    intro st st2 hP h
    rw [procList] at h
    cases h
    exact hP
  | cons kv rest ih =>
    intro st st2 hP h
    rw [procList] at h
    cases hs : step st kv with
    | error e => rw [hs] at h; cases h
    | ok st1 =>
      rw [hs] at h
      exact ih st1 st2 (hstep st kv st1 hP hs) h

/-- Splitting a loop over an appended list. -/
theorem procList_append
    (step : UGState → String × Entity → Except Unit UGState)
    (l1 l2 : List (String × Entity)) (st : UGState) :
    procList step (l1 ++ l2) st =
      match procList step l1 st with
      | .error e => .error e
      | .ok st1 => procList step l2 st1 := by
  induction l1 generalizing st with
  | nil => rw [List.nil_append, procList]
  | cons kv rest ih =>
    rw [List.cons_append, procList, procList]
    cases step st kv with
    | error e => rfl
    | ok st1 => exact ih st1

/-- `resStep` never changes the number of generations in the clone. -/
theorem resStep_length (m : GuidMap) (a : Nat) (st : UGState)
    (kv : String × Entity) (st2 : UGState)
    (h : resStep m a st kv = .ok st2) :
    st2.gens_clone.length = st.gens_clone.length := by
  rw [resStep] at h
  split at h
  · split at h
    · cases h
    · split at h
      · cases h
      · cases h
        exact List.length_set _ _ _
  · cases h
    rfl

/-- `relStep` never changes the number of generations in the clone. -/
theorem relStep_length (m : GuidMap) (a : Nat) (st : UGState)
    (kv : String × Entity) (st2 : UGState)
    (h : relStep m a st kv = .ok st2) :
    st2.gens_clone.length = st.gens_clone.length := by
  rw [relStep] at h
  split at h
  · split at h
    · cases h
    · split at h
      · cases h
      · cases h
        exact List.length_set _ _ _
  · cases h
    rfl

/-- Complete case analysis of a successful `resStep`: either the GUID was
already indexed and its entity in its generation is merged, or it is new
and staged into `ad_gen`. -/
theorem resStep_cases (m : GuidMap) (a : Nat) (st : UGState)
    (kv : String × Entity) (st2 : UGState)
    (h : resStep m a st kv = .ok st2) :
    (∃ ex_genId ex_gen existingResource,
      lookupF m kv.1 = some ex_genId ∧
      st.gens_clone[ex_genId - 1]? = some ex_gen ∧
      lookupF ex_gen.resources kv.1 = some existingResource ∧
      st2.gens_clone = st.gens_clone.set (ex_genId - 1)
        (putResource ex_gen kv.1 (objAssign existingResource kv.2)) ∧
      st2.map_clone = st.map_clone ∧
      st2.addingGen = st.addingGen ∧
      st2.ad_gen = st.ad_gen) ∨
    (lookupF m kv.1 = none ∧
      st2.gens_clone = st.gens_clone ∧
      st2.map_clone = setField st.map_clone kv.1 a ∧
      st2.addingGen = true ∧
      st2.ad_gen = putResource st.ad_gen kv.1 (setField kv.2 "gen" (.num a))) := by
  rw [resStep] at h
  split at h
  · split at h
    · cases h
    · split at h
      · cases h
      · cases h
        rename_i x1 ex_genId hl x2 ex_gen hg x3 existing he
        exact Or.inl ⟨ex_genId, ex_gen, existing, hl, hg, he, rfl, rfl, rfl, rfl⟩
  · cases h
    rename_i x1 hl
    exact Or.inr ⟨hl, rfl, rfl, rfl, rfl⟩

/-- Complete case analysis of a successful `relStep`. -/
theorem relStep_cases (m : GuidMap) (a : Nat) (st : UGState)
    (kv : String × Entity) (st2 : UGState)
    (h : relStep m a st kv = .ok st2) :
    (∃ ex_genId ex_gen existingRelationship,
      lookupF m kv.1 = some ex_genId ∧
      st.gens_clone[ex_genId - 1]? = some ex_gen ∧
      lookupF ex_gen.relationships kv.1 = some existingRelationship ∧
      st2.gens_clone = st.gens_clone.set (ex_genId - 1)
        (putRelationship ex_gen kv.1 (objAssign existingRelationship kv.2)) ∧
      st2.map_clone = st.map_clone ∧
      st2.addingGen = st.addingGen ∧
      st2.ad_gen = st.ad_gen) ∨
    (lookupF m kv.1 = none ∧
      st2.gens_clone = st.gens_clone ∧
      st2.map_clone = setField st.map_clone kv.1 a ∧
      st2.addingGen = true ∧
      st2.ad_gen = putRelationship st.ad_gen kv.1 (setField kv.2 "gen" (.num a))) := by
  rw [relStep] at h
  split at h
  · split at h
    · cases h
    · split at h
      · cases h
      · cases h
        rename_i x1 ex_genId hl x2 ex_gen hg x3 existing he
        exact Or.inl ⟨ex_genId, ex_gen, existing, hl, hg, he, rfl, rfl, rfl, rfl⟩
  · cases h
    rename_i x1 hl
    exact Or.inr ⟨hl, rfl, rfl, rfl, rfl⟩

/-- GUIDs of an update map that are not yet indexed. -/
def newKeys (m : GuidMap) (l : List (String × Entity)) : List String :=
  (l.map Prod.fst).filter (fun g => (lookupF m g).isNone)

/-- The resources loop leaves the generation count unchanged. -/
theorem procRes_length (m : GuidMap) (a : Nat) (l : List (String × Entity))
    (st st2 : UGState) (h : procList (resStep m a) l st = .ok st2) :
    st2.gens_clone.length = st.gens_clone.length :=
  procList_inv (fun s => s.gens_clone.length = st.gens_clone.length) _
    (fun s kv s2 hP hs => (resStep_length m a s kv s2 hs).trans hP) l st st2 rfl h

/-- The relationships loop leaves the generation count unchanged. -/
theorem procRel_length (m : GuidMap) (a : Nat) (l : List (String × Entity))
    (st st2 : UGState) (h : procList (relStep m a) l st = .ok st2) :
    st2.gens_clone.length = st.gens_clone.length :=
  procList_inv (fun s => s.gens_clone.length = st.gens_clone.length) _
    (fun s kv s2 hP hs => (relStep_length m a s kv s2 hs).trans hP) l st st2 rfl h

/-- When every GUID of the list is already indexed, the resources loop
changes neither the `addingGen` flag, nor the staged generation, nor the
map clone. -/
theorem procRes_allKnown (m : GuidMap) (a : Nat) (l : List (String × Entity))
    (st st2 : UGState) (hk : ∀ kv ∈ l, (lookupF m kv.1).isSome = true)
    (h : procList (resStep m a) l st = .ok st2) :
    st2.addingGen = st.addingGen ∧ st2.ad_gen = st.ad_gen ∧
      st2.map_clone = st.map_clone := by
  induction l generalizing st with
  | nil =>
    rw [procList] at h
    cases h
    exact ⟨rfl, rfl, rfl⟩
  | cons kv rest ih =>
    rw [procList] at h
    cases hs : resStep m a st kv with
    | error e => rw [hs] at h; cases h
    | ok st1 =>
      rw [hs] at h
      rcases resStep_cases m a st kv st1 hs with
        ⟨ex, gen, e0, hl, hg, he, hgc, hmc, hag, hadg⟩ | ⟨hl, hgc, hmc, hag, hadg⟩
      · have := ih st1 (fun kv2 h2 => hk kv2 (List.mem_cons_of_mem kv h2)) h
        rw [hag, hadg, hmc] at this
        exact this
      · have := hk kv (List.mem_cons_self kv rest)
        rw [hl] at this
        cases this

/-- When every GUID of the list is already indexed, the relationships loop
changes neither the `addingGen` flag, nor the staged generation, nor the
map clone. -/
theorem procRel_allKnown (m : GuidMap) (a : Nat) (l : List (String × Entity))
    (st st2 : UGState) (hk : ∀ kv ∈ l, (lookupF m kv.1).isSome = true)
    (h : procList (relStep m a) l st = .ok st2) :
    st2.addingGen = st.addingGen ∧ st2.ad_gen = st.ad_gen ∧
      st2.map_clone = st.map_clone := by
  induction l generalizing st with
  | nil =>
    rw [procList] at h
    cases h
    exact ⟨rfl, rfl, rfl⟩
  | cons kv rest ih =>
    rw [procList] at h
    cases hs : relStep m a st kv with
    | error e => rw [hs] at h; cases h
    | ok st1 =>
      rw [hs] at h
      rcases relStep_cases m a st kv st1 hs with
        ⟨ex, gen, e0, hl, hg, he, hgc, hmc, hag, hadg⟩ | ⟨hl, hgc, hmc, hag, hadg⟩
      · have := ih st1 (fun kv2 h2 => hk kv2 (List.mem_cons_of_mem kv h2)) h
        rw [hag, hadg, hmc] at this
        exact this
      · have := hk kv (List.mem_cons_self kv rest)
        rw [hl] at this
        cases this

/-- Both loops only ever raise the `addingGen` flag and only ever add keys
to the staged generation. -/
theorem procStep_mono (step : UGState → String × Entity → Except Unit UGState)
    (hstep : ∀ s kv s2, step s kv = .ok s2 →
      (s.addingGen = true → s2.addingGen = true) ∧
      (∀ g, g ∈ s.ad_gen.resources.map Prod.fst →
        g ∈ s2.ad_gen.resources.map Prod.fst) ∧
      (∀ g, g ∈ s.ad_gen.relationships.map Prod.fst →
        g ∈ s2.ad_gen.relationships.map Prod.fst))
    (l : List (String × Entity)) (st st2 : UGState)
    (h : procList step l st = .ok st2) :
    (st.addingGen = true → st2.addingGen = true) ∧
    (∀ g, g ∈ st.ad_gen.resources.map Prod.fst →
      g ∈ st2.ad_gen.resources.map Prod.fst) ∧
    (∀ g, g ∈ st.ad_gen.relationships.map Prod.fst →
      g ∈ st2.ad_gen.relationships.map Prod.fst) := by
  induction l generalizing st with
  | nil =>
    rw [procList] at h
    cases h
    exact ⟨fun x => x, fun g hg => hg, fun g hg => hg⟩
  | cons kv rest ih =>
    rw [procList] at h
    cases hs : step st kv with
    | error e => rw [hs] at h; cases h
    | ok st1 =>
      rw [hs] at h
      obtain ⟨m1, m2, m3⟩ := hstep st kv st1 hs
      obtain ⟨n1, n2, n3⟩ := ih st1 h
      exact ⟨fun x => n1 (m1 x), fun g hg => n2 g (m2 g hg),
        fun g hg => n3 g (m3 g hg)⟩

/-- `resStep` satisfies the monotonicity hypotheses of `procStep_mono`. -/
theorem resStep_mono (m : GuidMap) (a : Nat) :
    ∀ s kv s2, resStep m a s kv = .ok s2 →
      (s.addingGen = true → s2.addingGen = true) ∧
      (∀ g, g ∈ s.ad_gen.resources.map Prod.fst →
        g ∈ s2.ad_gen.resources.map Prod.fst) ∧
      (∀ g, g ∈ s.ad_gen.relationships.map Prod.fst →
        g ∈ s2.ad_gen.relationships.map Prod.fst) := by
  intro s kv s2 hs
  rcases resStep_cases m a s kv s2 hs with
    ⟨ex, gen, e0, hl, hg, he, hgc, hmc, hag, hadg⟩ | ⟨hl, hgc, hmc, hag, hadg⟩
  · rw [hag, hadg]
    exact ⟨fun x => x, fun g hg => hg, fun g hg => hg⟩
  · rw [hag, hadg]
    refine ⟨fun x => rfl, fun g hg => ?_, fun g hg => hg⟩
    rw [putResource]
    exact (mem_keys_setField _ _ _ _).2 (Or.inr hg)

/-- `relStep` satisfies the monotonicity hypotheses of `procStep_mono`. -/
theorem relStep_mono (m : GuidMap) (a : Nat) :
    ∀ s kv s2, relStep m a s kv = .ok s2 →
      (s.addingGen = true → s2.addingGen = true) ∧
      (∀ g, g ∈ s.ad_gen.resources.map Prod.fst →
        g ∈ s2.ad_gen.resources.map Prod.fst) ∧
      (∀ g, g ∈ s.ad_gen.relationships.map Prod.fst →
        g ∈ s2.ad_gen.relationships.map Prod.fst) := by
  intro s kv s2 hs
  rcases relStep_cases m a s kv s2 hs with
    ⟨ex, gen, e0, hl, hg, he, hgc, hmc, hag, hadg⟩ | ⟨hl, hgc, hmc, hag, hadg⟩
  · rw [hag, hadg]
    exact ⟨fun x => x, fun g hg => hg, fun g hg => hg⟩
  · rw [hag, hadg]
    refine ⟨fun x => rfl, fun g hg => hg, fun g hg => ?_⟩
    rw [putRelationship]
    exact (mem_keys_setField _ _ _ _).2 (Or.inr hg)

/-- Every not-yet-indexed GUID processed by the resources loop raises the
flag and ends up among the staged generation's resources. -/
theorem procRes_newKey (m : GuidMap) (a : Nat) (l : List (String × Entity))
    (st st2 : UGState) (h : procList (resStep m a) l st = .ok st2)
    (kv : String × Entity) (hmem : kv ∈ l) (hnew : lookupF m kv.1 = none) :
    st2.addingGen = true ∧ kv.1 ∈ st2.ad_gen.resources.map Prod.fst := by
  induction l generalizing st with
  | nil => cases hmem
  | cons kv0 rest ih =>
    rw [procList] at h
    cases hs : resStep m a st kv0 with
    | error e => rw [hs] at h; cases h
    | ok st1 =>
      rw [hs] at h
      rcases List.mem_cons.1 hmem with heq | htail
      · subst heq
        rcases resStep_cases m a st kv st1 hs with
          ⟨ex, gen, e0, hl, hg, he, hgc, hmc, hag, hadg⟩ | ⟨hl, hgc, hmc, hag, hadg⟩
        · rw [hl] at hnew; cases hnew
        · obtain ⟨n1, n2, n3⟩ :=
            procStep_mono (resStep m a) (resStep_mono m a) rest st1 st2 h
          refine ⟨n1 hag, n2 kv.1 ?_⟩
          rw [hadg, putResource]
          exact (mem_keys_setField _ _ _ _).2 (Or.inl rfl)
      · exact ih st1 h htail

/-- Every not-yet-indexed GUID processed by the relationships loop raises
the flag and ends up among the staged generation's relationships. -/
theorem procRel_newKey (m : GuidMap) (a : Nat) (l : List (String × Entity))
    (st st2 : UGState) (h : procList (relStep m a) l st = .ok st2)
    (kv : String × Entity) (hmem : kv ∈ l) (hnew : lookupF m kv.1 = none) :
    st2.addingGen = true ∧ kv.1 ∈ st2.ad_gen.relationships.map Prod.fst := by
  induction l generalizing st with
  | nil => cases hmem
  | cons kv0 rest ih =>
    rw [procList] at h
    cases hs : relStep m a st kv0 with
    | error e => rw [hs] at h; cases h
    | ok st1 =>
      rw [hs] at h
      rcases List.mem_cons.1 hmem with heq | htail
      · subst heq
        rcases relStep_cases m a st kv st1 hs with
          ⟨ex, gen, e0, hl, hg, he, hgc, hmc, hag, hadg⟩ | ⟨hl, hgc, hmc, hag, hadg⟩
        · rw [hl] at hnew; cases hnew
        · obtain ⟨n1, n2, n3⟩ :=
            procStep_mono (relStep m a) (relStep_mono m a) rest st1 st2 h
          refine ⟨n1 hag, n3 kv.1 ?_⟩
          rw [hadg, putRelationship]
          exact (mem_keys_setField _ _ _ _).2 (Or.inl rfl)
      · exact ih st1 h htail

/-- Unfolding equation of the loop on a cons cell. -/
theorem procList_cons (step : UGState → String × Entity → Except Unit UGState)
    (kv : String × Entity) (rest : List (String × Entity)) (st : UGState) :
    procList step (kv :: rest) st =
      match step st kv with
      | .error e => .error e
      | .ok st2 => procList step rest st2 := rfl

/-- A successful loop over a cons cell factors through the head step. -/
theorem procList_cons_ok (step : UGState → String × Entity → Except Unit UGState)
    (kv : String × Entity) (rest : List (String × Entity)) (st st2 : UGState) :
    procList step (kv :: rest) st = .ok st2 ↔
      ∃ st1, step st kv = .ok st1 ∧ procList step rest st1 = .ok st2 := by
  rw [procList_cons]
  cases step st kv with
  | error e => simp
  | ok st1 => simp

/-- A successful loop over an appended list factors through an
intermediate state. -/
theorem procList_append_ok (step : UGState → String × Entity → Except Unit UGState)
    (l1 l2 : List (String × Entity)) (st st2 : UGState) :
    procList step (l1 ++ l2) st = .ok st2 ↔
      ∃ st1, procList step l1 st = .ok st1 ∧ procList step l2 st1 = .ok st2 := by
  rw [procList_append]
  cases procList step l1 st with
  | error e => simp
  | ok st1 => simp

/-- Decomposition of a successful `updateGens` call into its two loops and
its final assembly. -/
theorem updateGens_cases (gens : List Gen) (m : GuidMap) (u : UpdateObjects)
    (rs : String) (gens2 : List Gen) (m2 : GuidMap)
    (h : updateGens gens m u rs = .ok (gens2, m2)) :
    ∃ st1 st2,
      procList (resStep m (gens.length + 1)) u.resources
        { gens_clone := gens, map_clone := m, addingGen := false,
          ad_gen := createEmptyGen rs } = .ok st1 ∧
      procList (relStep m (gens.length + 1)) u.relationships st1 = .ok st2 ∧
      gens2 = (if st2.addingGen then st2.gens_clone ++ [st2.ad_gen]
                 else st2.gens_clone) ∧
      m2 = (if st2.addingGen then st2.map_clone else m) := by
  rw [updateGens] at h
  split at h
  · cases h
  · split at h
    · cases h
    · cases h
      rename_i x1 st1 h1 x2 st2 h2
      exact ⟨st1, st2, h1, h2, rfl, rfl⟩

end UpdateLemmas

/-- A stored resource pins its generation index inside the list. -/
theorem getRes_lt_length (gens : List Gen) (gid : Nat) (guid : String)
    (e : Entity) (h : getRes gens gid guid = some e) : gid - 1 < gens.length := by
  rw [getRes] at h
  cases hg : gens[gid - 1]? with
  | none => rw [hg] at h; cases h
  | some gen => exact (List.getElem?_eq_some.1 hg).1

/-- A `resStep` for a different GUID does not change the stored resource
entity of `guid` in any generation. -/
theorem resStep_getRes_ne (m : GuidMap) (a : Nat) (st : UGState)
    (kv : String × Entity) (st2 : UGState) (gid : Nat) (guid : String)
    (h : resStep m a st kv = .ok st2) (hne : kv.1 ≠ guid) :
    getRes st2.gens_clone gid guid = getRes st.gens_clone gid guid := by
  rcases resStep_cases m a st kv st2 h with
    ⟨ex, gen, e0, hl, hg, he, hgc, hmc, hag, hadg⟩ | ⟨hl, hgc, hmc, hag, hadg⟩
  · rw [hgc, getRes, getRes, List.getElem?_set]
    by_cases hi : ex - 1 = gid - 1
    · rw [if_pos hi, if_pos (hi ▸ (List.getElem?_eq_some.1 hg).1), ← hi, hg]
      rw [putResource]
      show lookupF (setField gen.resources kv.1 (objAssign e0 kv.2)) guid =
        lookupF gen.resources guid
      exact lookupF_setField_ne _ _ _ _ (fun e => hne e.symm)
    · rw [if_neg hi]
  · rw [hgc]

/-- A `relStep` never changes any stored resource entity. -/
theorem relStep_getRes (m : GuidMap) (a : Nat) (st : UGState)
    (kv : String × Entity) (st2 : UGState) (gid : Nat) (guid : String)
    (h : relStep m a st kv = .ok st2) :
    getRes st2.gens_clone gid guid = getRes st.gens_clone gid guid := by
  rcases relStep_cases m a st kv st2 h with
    ⟨ex, gen, e0, hl, hg, he, hgc, hmc, hag, hadg⟩ | ⟨hl, hgc, hmc, hag, hadg⟩
  · rw [hgc, getRes, getRes, List.getElem?_set]
    by_cases hi : ex - 1 = gid - 1
    · rw [if_pos hi, if_pos (hi ▸ (List.getElem?_eq_some.1 hg).1), ← hi, hg]
      rw [putRelationship]
    · rw [if_neg hi]
  · rw [hgc]

/-- The resources loop over pairs whose GUIDs all differ from `guid` leaves
the stored resource entity of `guid` unchanged. -/
theorem procRes_getRes_ne (m : GuidMap) (a : Nat) (l : List (String × Entity))
    (st st2 : UGState) (gid : Nat) (guid : String)
    (hne : ∀ kv ∈ l, kv.1 ≠ guid)
    (h : procList (resStep m a) l st = .ok st2) :
    getRes st2.gens_clone gid guid = getRes st.gens_clone gid guid := by
  induction l generalizing st with
  | nil => rw [procList] at h; cases h; rfl
  | cons kv rest ih =>
    rw [procList] at h
    cases hs : resStep m a st kv with
    | error e => rw [hs] at h; cases h
    | ok st1 =>
      rw [hs] at h
      rw [ih st1 (fun kv2 h2 => hne kv2 (List.mem_cons_of_mem kv h2)) h,
        resStep_getRes_ne m a st kv st1 gid guid hs
          (hne kv (List.mem_cons_self kv rest))]

/-- The relationships loop leaves every stored resource entity unchanged. -/
theorem procRel_getRes (m : GuidMap) (a : Nat) (l : List (String × Entity))
    (st st2 : UGState) (gid : Nat) (guid : String)
    (h : procList (relStep m a) l st = .ok st2) :
    getRes st2.gens_clone gid guid = getRes st.gens_clone gid guid := by
  induction l generalizing st with
  | nil => rw [procList] at h; cases h; rfl
  | cons kv rest ih =>
    rw [procList] at h
    cases hs : relStep m a st kv with
    | error e => rw [hs] at h; cases h
    | ok st1 =>
      rw [hs] at h
      rw [ih st1 h, relStep_getRes m a st kv st1 gid guid hs]

/-- The `resStep` merging an already-indexed GUID replaces its stored
entity by the `Object.assign` merge of the old entity with the update. -/
theorem resStep_merge (m : GuidMap) (a : Nat) (st : UGState) (guid : String)
    (eupd : Entity) (st2 : UGState) (gid : Nat) (eold : Entity)
    (hidx : lookupF m guid = some gid)
    (hold : getRes st.gens_clone gid guid = some eold)
    (h : resStep m a st (guid, eupd) = .ok st2) :
    getRes st2.gens_clone gid guid = some (objAssign eold eupd) := by
  rcases resStep_cases m a st (guid, eupd) st2 h with
    ⟨ex, gen, e0, hl, hg, he, hgc, hmc, hag, hadg⟩ | ⟨hl, hgc, hmc, hag, hadg⟩
  · dsimp only at hl he hgc
    have hex : ex = gid := by
      rw [hidx] at hl
      exact (Option.some.inj hl).symm
    subst hex
    have hold2 : lookupF gen.resources guid = some eold := by
      rw [getRes, hg] at hold
      exact hold
    rw [he] at hold2
    have he0 : e0 = eold := Option.some.inj hold2
    subst he0
    rw [hgc, getRes, List.getElem?_set, if_pos rfl,
      if_pos (List.getElem?_eq_some.1 hg).1]
    show lookupF (setField gen.resources guid (objAssign e0 eupd)) guid =
      some (objAssign e0 eupd)
    exact lookupF_setField_self _ _ _
  · dsimp only at hl
    rw [hidx] at hl
    cases hl

/-- The resources loop never changes the index entry of an
already-indexed GUID in the map clone. -/
theorem procRes_map_known (m : GuidMap) (a : Nat) (l : List (String × Entity))
    (st st2 : UGState) (guid : String) (gid : Nat)
    (hidx : lookupF m guid = some gid)
    (h : procList (resStep m a) l st = .ok st2) :
    lookupF st2.map_clone guid = lookupF st.map_clone guid := by
  refine procList_inv
    (fun s => lookupF s.map_clone guid = lookupF st.map_clone guid) _
    ?_ l st st2 rfl h
  intro s kv s2 hP hs
  rcases resStep_cases m a s kv s2 hs with
    ⟨ex, gen, e0, hl, hg, he, hgc, hmc, hag, hadg⟩ | ⟨hl, hgc, hmc, hag, hadg⟩
  · rw [hmc]; exact hP
  · rw [hmc]
    have hne : guid ≠ kv.1 := by
      intro he2
      rw [← he2, hidx] at hl
      cases hl
    rw [lookupF_setField_ne _ _ _ _ hne]
    exact hP

/-- The relationships loop never changes the index entry of an
already-indexed GUID in the map clone. -/
theorem procRel_map_known (m : GuidMap) (a : Nat) (l : List (String × Entity))
    (st st2 : UGState) (guid : String) (gid : Nat)
    (hidx : lookupF m guid = some gid)
    (h : procList (relStep m a) l st = .ok st2) :
    lookupF st2.map_clone guid = lookupF st.map_clone guid := by
  refine procList_inv
    (fun s => lookupF s.map_clone guid = lookupF st.map_clone guid) _
    ?_ l st st2 rfl h
  intro s kv s2 hP hs
  rcases relStep_cases m a s kv s2 hs with
    ⟨ex, gen, e0, hl, hg, he, hgc, hmc, hag, hadg⟩ | ⟨hl, hgc, hmc, hag, hadg⟩
  · rw [hmc]; exact hP
  · rw [hmc]
    have hne : guid ≠ kv.1 := by
      intro he2
      rw [← he2, hidx] at hl
      cases hl
    rw [lookupF_setField_ne _ _ _ _ hne]
    exact hP

/-- A successful first lookup splits an association list at its first (and
under `Nodup`, only) entry for the key. -/
theorem lookupF_eq_some_split {α : Type} (l : List (String × α)) (k : String)
    (v : α) (h : lookupF l k = some v) :
    ∃ pre post, l = pre ++ (k, v) :: post ∧ ∀ kv ∈ pre, kv.1 ≠ k := by
  induction l with
  | nil => cases h
  | cons kv rest ih =>
    rw [lookupF_cons] at h
    by_cases hk : kv.1 = k
    · rw [if_pos hk] at h
      refine ⟨[], rest, ?_, by intro kv2 h2; cases h2⟩
      cases kv with
      | mk k1 v1 =>
        simp only at hk h
        rw [hk, Option.some.inj h]
        rfl
    · rw [if_neg hk] at h
      obtain ⟨pre, post, heq, hpre⟩ := ih h
      exact ⟨kv :: pre, post, by rw [heq]; rfl,
        fun kv2 h2 => Or.elim (List.mem_cons.1 h2) (fun e => e ▸ hk) (hpre kv2)⟩

/-- The fold invariant behind C7: the clone keeps the generation count, the
clone's generations only gain keys, and every index entry of the map clone
is either inherited from the original index or points at the staged
generation, which contains it. -/
def UGInv (g : List Gen) (m : GuidMap) (st : UGState) : Prop :=
  st.gens_clone.length = g.length ∧
  (∀ (i : Nat) (gen : Gen), g[i]? = some gen →
    ∃ gen2 : Gen, st.gens_clone[i]? = some gen2 ∧
    (∀ x ∈ gen.resources.map Prod.fst, x ∈ gen2.resources.map Prod.fst) ∧
    (∀ x ∈ gen.relationships.map Prod.fst,
      x ∈ gen2.relationships.map Prod.fst)) ∧
  (∀ (guid : String) (gid : Nat), lookupF st.map_clone guid = some gid →
    lookupF m guid = some gid ∨
      (gid = g.length + 1 ∧ genContains st.ad_gen guid))

/-- `resStep` preserves the fold invariant. -/
theorem resStep_UGInv (g : List Gen) (m : GuidMap) (st : UGState)
    (kv : String × Entity) (st2 : UGState)
    (h : resStep m (g.length + 1) st kv = .ok st2)
    (hP : UGInv g m st) : UGInv g m st2 := by
  obtain ⟨hlen, hsup, hmap⟩ := hP
  rcases resStep_cases m (g.length + 1) st kv st2 h with
    ⟨ex, gen, e0, hl, hg, he, hgc, hmc, hag, hadg⟩ | ⟨hl, hgc, hmc, hag, hadg⟩
  · refine ⟨by rw [hgc, List.length_set, hlen], ?_, ?_⟩
    · intro i gen0 hi
      obtain ⟨gen2, hgen2, hr, hq⟩ := hsup i gen0 hi
      rw [hgc, List.getElem?_set]
      by_cases hidx : ex - 1 = i
      · subst hidx
        rw [hgen2] at hg
        have hgen2eq : gen2 = gen := Option.some.inj hg
        subst hgen2eq
        refine ⟨putResource gen2 kv.1 (objAssign e0 kv.2),
          by rw [if_pos rfl, if_pos (List.getElem?_eq_some.1 hgen2).1], ?_, ?_⟩
        · intro x hx
          rw [putResource]
          show x ∈ (setField gen2.resources kv.1 (objAssign e0 kv.2)).map Prod.fst
          exact (mem_keys_setField _ _ _ _).2 (Or.inr (hr x hx))
        · intro x hx
          rw [putResource]
          exact hq x hx
      · rw [if_neg hidx]
        exact ⟨gen2, hgen2, hr, hq⟩
    · intro guid gid hlk
      rw [hmc] at hlk
      rcases hmap guid gid hlk with hx | ⟨hgid, hcont⟩
      · exact Or.inl hx
      · rw [hadg]
        exact Or.inr ⟨hgid, hcont⟩
  · refine ⟨by rw [hgc, hlen], ?_, ?_⟩
    · intro i gen0 hi
      rw [hgc]
      exact hsup i gen0 hi
    · intro guid gid hlk
      rw [hmc, lookupF_setField] at hlk
      by_cases hgd : guid = kv.1
      · rw [if_pos hgd] at hlk
        refine Or.inr ⟨(Option.some.inj hlk).symm, ?_⟩
        rw [hadg, genContains, putResource]
        exact Or.inl ((mem_keys_setField _ _ _ _).2 (Or.inl hgd))
      · rw [if_neg hgd] at hlk
        rcases hmap guid gid hlk with hx | ⟨hgid, hcont⟩
        · exact Or.inl hx
        · refine Or.inr ⟨hgid, ?_⟩
          rw [hadg, genContains, putResource]
          rcases hcont with hc | hc
          · exact Or.inl ((mem_keys_setField _ _ _ _).2 (Or.inr hc))
          · exact Or.inr hc

/-- `relStep` preserves the fold invariant. -/
theorem relStep_UGInv (g : List Gen) (m : GuidMap) (st : UGState)
    (kv : String × Entity) (st2 : UGState)
    (h : relStep m (g.length + 1) st kv = .ok st2)
    (hP : UGInv g m st) : UGInv g m st2 := by
  obtain ⟨hlen, hsup, hmap⟩ := hP
  rcases relStep_cases m (g.length + 1) st kv st2 h with
    ⟨ex, gen, e0, hl, hg, he, hgc, hmc, hag, hadg⟩ | ⟨hl, hgc, hmc, hag, hadg⟩
  · refine ⟨by rw [hgc, List.length_set, hlen], ?_, ?_⟩
    · intro i gen0 hi
      obtain ⟨gen2, hgen2, hr, hq⟩ := hsup i gen0 hi
      rw [hgc, List.getElem?_set]
      by_cases hidx : ex - 1 = i
      · subst hidx
        rw [hgen2] at hg
        have hgen2eq : gen2 = gen := Option.some.inj hg
        subst hgen2eq
        refine ⟨putRelationship gen2 kv.1 (objAssign e0 kv.2),
          by rw [if_pos rfl, if_pos (List.getElem?_eq_some.1 hgen2).1], ?_, ?_⟩
        · intro x hx
          rw [putRelationship]
          exact hr x hx
        · intro x hx
          rw [putRelationship]
          show x ∈ (setField gen2.relationships kv.1 (objAssign e0 kv.2)).map Prod.fst
          exact (mem_keys_setField _ _ _ _).2 (Or.inr (hq x hx))
      · rw [if_neg hidx]
        exact ⟨gen2, hgen2, hr, hq⟩
    · intro guid gid hlk
      rw [hmc] at hlk
      rcases hmap guid gid hlk with hx | ⟨hgid, hcont⟩
      · exact Or.inl hx
      · rw [hadg]
        exact Or.inr ⟨hgid, hcont⟩
  · refine ⟨by rw [hgc, hlen], ?_, ?_⟩
    · intro i gen0 hi
      rw [hgc]
      exact hsup i gen0 hi
    · intro guid gid hlk
      rw [hmc, lookupF_setField] at hlk
      by_cases hgd : guid = kv.1
      · rw [if_pos hgd] at hlk
        refine Or.inr ⟨(Option.some.inj hlk).symm, ?_⟩
        rw [hadg, genContains, putRelationship]
        exact Or.inr ((mem_keys_setField _ _ _ _).2 (Or.inl hgd))
      · rw [if_neg hgd] at hlk
        rcases hmap guid gid hlk with hx | ⟨hgid, hcont⟩
        · exact Or.inl hx
        · refine Or.inr ⟨hgid, ?_⟩
          rw [hadg, genContains, putRelationship]
          rcases hcont with hc | hc
          · exact Or.inl hc
          · exact Or.inr ((mem_keys_setField _ _ _ _).2 (Or.inr hc))

/-- Decomposition of a successful `removeGen` call. -/
theorem removeGen_cases (st st2 : RState) (h : removeGen st = .ok st2) :
    ∃ removedGen, st.gens.getLast? = some removedGen ∧
      st2.gens = st.gens.dropLast ∧
      st2.guidToGenId =
        (removedGen.relationships.map Prod.fst).foldl mapDelete
          ((removedGen.resources.map Prod.fst).foldl mapDelete st.guidToGenId) ∧
      st2.focus =
        (if (lookupF removedGen.resources
              (jvToPropKey (entGet st.focus "guid"))).isSome then focusObj "" ""
         else st.focus) := by
  rw [removeGen] at h
  split at h
  · cases h
  · cases h
    rename_i x1 removedGen hlast
    exact ⟨removedGen, hlast, rfl, rfl, rfl⟩

/-! ### Claim theorems -/

/-- C1: a call to `updateGens` whose update set contains at least one
resource or relationship identifier not present in `guidToGenId` appends
exactly one new generation, and every new identifier is placed in that
single appended generation; a call whose identifiers are all already
indexed leaves the length of `gens` unchanged. -/
theorem updateGens_single_new_gen (gens : List Gen) (m : GuidMap)
    (u : UpdateObjects) (rs : String) (gens2 : List Gen) (m2 : GuidMap)
    (h : updateGens gens m u rs = .ok (gens2, m2)) :
    (newKeys m u.resources = [] ∧ newKeys m u.relationships = [] →
      gens2.length = gens.length) ∧
    (newKeys m u.resources ≠ [] ∨ newKeys m u.relationships ≠ [] →
      gens2.length = gens.length + 1 ∧
      ∃ adGen, gens2[gens.length]? = some adGen ∧
        (∀ guid ∈ newKeys m u.resources,
          guid ∈ adGen.resources.map Prod.fst) ∧
        (∀ guid ∈ newKeys m u.relationships,
          guid ∈ adGen.relationships.map Prod.fst)) := by
  obtain ⟨st1, st2, h1, h2, hg2, hm2⟩ := updateGens_cases gens m u rs gens2 m2 h
  have hlen : st2.gens_clone.length = gens.length := by
    rw [procRel_length m _ u.relationships st1 st2 h2,
      procRes_length m _ u.resources _ st1 h1]
  constructor
  · rintro ⟨hres, hrel⟩
    have hk1 : ∀ kv ∈ u.resources, (lookupF m kv.1).isSome = true := by
      intro kv hkv
      have hmem : kv.1 ∈ u.resources.map Prod.fst := List.mem_map_of_mem Prod.fst hkv
      by_contra hno
      have hnone : (lookupF m kv.1).isNone = true := by
        cases hlk : lookupF m kv.1 with
        | none => rfl
        | some x => rw [hlk] at hno; exact absurd rfl hno
      have : kv.1 ∈ newKeys m u.resources :=
        List.mem_filter.2 ⟨hmem, hnone⟩
      rw [hres] at this
      cases this
    have hk2 : ∀ kv ∈ u.relationships, (lookupF m kv.1).isSome = true := by
      intro kv hkv
      have hmem : kv.1 ∈ u.relationships.map Prod.fst := List.mem_map_of_mem Prod.fst hkv
      by_contra hno
      have hnone : (lookupF m kv.1).isNone = true := by
        cases hlk : lookupF m kv.1 with
        | none => rfl
        | some x => rw [hlk] at hno; exact absurd rfl hno
      have : kv.1 ∈ newKeys m u.relationships :=
        List.mem_filter.2 ⟨hmem, hnone⟩
      rw [hrel] at this
      cases this
    obtain ⟨hag1, _, _⟩ := procRes_allKnown m _ u.resources _ st1 hk1 h1
    obtain ⟨hag2, _, _⟩ := procRel_allKnown m _ u.relationships st1 st2 hk2 h2
    have hfalse : st2.addingGen = false := by rw [hag2, hag1]
    rw [hg2, if_neg (by rw [hfalse]; exact Bool.false_ne_true)]
    exact hlen
  · intro hnew
    have haddT : st2.addingGen = true := by
      rcases hnew with hx | hx
      · obtain ⟨g0, hg0⟩ := List.exists_mem_of_ne_nil _ hx
        obtain ⟨hgm, hgn⟩ := List.mem_filter.1 hg0
        obtain ⟨kv, hkv, hfst⟩ := List.mem_map.1 hgm
        have hnone : lookupF m kv.1 = none := by
          rw [hfst]; exact Option.isNone_iff_eq_none.1 hgn
        obtain ⟨ha1, _⟩ := procRes_newKey m _ u.resources _ st1 h1 kv hkv hnone
        exact (procStep_mono _ (relStep_mono m _) u.relationships st1 st2 h2).1 ha1
      · obtain ⟨g0, hg0⟩ := List.exists_mem_of_ne_nil _ hx
        obtain ⟨hgm, hgn⟩ := List.mem_filter.1 hg0
        obtain ⟨kv, hkv, hfst⟩ := List.mem_map.1 hgm
        have hnone : lookupF m kv.1 = none := by
          rw [hfst]; exact Option.isNone_iff_eq_none.1 hgn
        exact (procRel_newKey m _ u.relationships st1 st2 h2 kv hkv hnone).1
    rw [hg2, if_pos haddT]
    refine ⟨by rw [List.length_append, hlen]; rfl, st2.ad_gen, ?_, ?_, ?_⟩
    · rw [← hlen]
      simp
    · intro guid hguid
      obtain ⟨hgm, hgn⟩ := List.mem_filter.1 hguid
      obtain ⟨kv, hkv, hfst⟩ := List.mem_map.1 hgm
      have hnone : lookupF m kv.1 = none := by
        rw [hfst]; exact Option.isNone_iff_eq_none.1 hgn
      obtain ⟨_, hin⟩ := procRes_newKey m _ u.resources _ st1 h1 kv hkv hnone
      have := (procStep_mono _ (relStep_mono m _) u.relationships st1 st2 h2).2.1
      rw [← hfst]
      exact this kv.1 hin
    · intro guid hguid
      obtain ⟨hgm, hgn⟩ := List.mem_filter.1 hguid
      obtain ⟨kv, hkv, hfst⟩ := List.mem_map.1 hgm
      have hnone : lookupF m kv.1 = none := by
        rw [hfst]; exact Option.isNone_iff_eq_none.1 hgn
      obtain ⟨_, hin⟩ := procRel_newKey m _ u.relationships st1 st2 h2 kv hkv hnone
      rw [← hfst]
      exact hin

/-- Witness for C1 at a concrete input: one already-known resource and two
new identifiers (a resource and a relationship) produce exactly one new
generation containing both new identifiers. -/
theorem updateGens_single_new_gen_witness :
    ∃ gens2 m2,
      updateGens
        [{ requestSummary := "r0", resources := [("K", [("a", .num 1)])],
           relationships := [] }]
        [("K", 1)]
        { resources := [("K", [("b", .num 2)]), ("N1", [("c", .num 3)])],
          relationships := [("N2", [("d", .num 4)])] }
        "req" = .ok (gens2, m2) ∧
      gens2.length = 2 ∧
      ∃ adGen, gens2[1]? = some adGen ∧
        (∀ guid ∈ newKeys [("K", 1)]
          [("K", [("b", .num 2)]), ("N1", [("c", .num 3)])],
          guid ∈ adGen.resources.map Prod.fst) ∧
        (∀ guid ∈ newKeys [("K", 1)] [("N2", [("d", .num 4)])],
          guid ∈ adGen.relationships.map Prod.fst) := by
  refine ⟨_, _, rfl, ?_⟩
  have h := updateGens_single_new_gen
    [{ requestSummary := "r0", resources := [("K", [("a", .num 1)])],
       relationships := [] }]
    [("K", 1)]
    { resources := [("K", [("b", .num 2)]), ("N1", [("c", .num 3)])],
      relationships := [("N2", [("d", .num 4)])] }
    "req" _ _ rfl
  exact h.2 (Or.inl (by decide))

/-- C5: a later `updateGens` call supplying an already-indexed resource
identifier merges the update into the existing entity in its original
generation by a per-field shallow overwrite (`Object.assign`), creates no
new generation for it, and leaves its `guidToGenId` entry unchanged.  The
last two conjuncts spell out the shallow merge: fields of the update win,
fields absent from the update keep their old values. -/
theorem updateGens_merge_existing (gens : List Gen) (m : GuidMap)
    (u : UpdateObjects) (rs : String) (gens2 : List Gen) (m2 : GuidMap)
    (guid : String) (gid : Nat) (eold eupd : Entity)
    (hnodup : (u.resources.map Prod.fst).Nodup)
    (hukey : lookupF u.resources guid = some eupd)
    (hidx : lookupF m guid = some gid)
    (hold : getRes gens gid guid = some eold)
    (h : updateGens gens m u rs = .ok (gens2, m2)) :
    lookupF m2 guid = some gid ∧
    getRes gens2 gid guid = some (objAssign eold eupd) ∧
    (∀ k v, lookupF eupd k = some v → (eupd.map Prod.fst).Nodup →
      lookupF (objAssign eold eupd) k = some v) ∧
    (∀ k, lookupF eupd k = none →
      lookupF (objAssign eold eupd) k = lookupF eold k) := by
  obtain ⟨st1, st2, h1, h2, hg2, hm2⟩ := updateGens_cases gens m u rs gens2 m2 h
  obtain ⟨pre, post, hsplit, hpre⟩ := lookupF_eq_some_split u.resources guid eupd hukey
  have hpost : ∀ kv ∈ post, kv.1 ≠ guid := by
    intro kv hkv he
    rw [hsplit, List.map_append, List.map_cons] at hnodup
    have hnd2 := hnodup.of_append_right
    rw [List.nodup_cons] at hnd2
    have hmem : guid ∈ post.map Prod.fst := by
      rw [← he]
      exact List.mem_map_of_mem Prod.fst hkv
    exact hnd2.1 hmem
  have h1full := h1
  rw [hsplit] at h1
  obtain ⟨sta, hpa, h1b⟩ := (procList_append_ok _ pre _ _ st1).1 h1
  obtain ⟨stb, hsb, hpost_run⟩ := (procList_cons_ok _ _ post sta st1).1 h1b
  have hpre_eq := procRes_getRes_ne m (gens.length + 1) pre _ sta gid guid hpre hpa
  have hmerged := resStep_merge m (gens.length + 1) sta guid eupd stb gid eold
    hidx (by rw [hpre_eq]; exact hold) hsb
  have hpost_eq := procRes_getRes_ne m (gens.length + 1) post stb st1 gid guid
    hpost hpost_run
  have hrel_eq := procRel_getRes m (gens.length + 1) u.relationships st1 st2 gid guid h2
  have hst2 : getRes st2.gens_clone gid guid = some (objAssign eold eupd) := by
    rw [hrel_eq, hpost_eq, hmerged]
  have hfin : getRes gens2 gid guid = some (objAssign eold eupd) := by
    rw [hg2]
    by_cases hadd : st2.addingGen = true
    · rw [if_pos hadd]
      have hlt := getRes_lt_length st2.gens_clone gid guid _ hst2
      rw [getRes, List.getElem?_append, if_pos hlt]
      rw [getRes] at hst2
      exact hst2
    · rw [if_neg hadd]
      exact hst2
  refine ⟨?_, hfin,
    fun k v hk hnd2 => lookupF_objAssign_of_some eold eupd k v hnd2 hk,
    fun k hk => lookupF_objAssign_of_none eold eupd k hk⟩
  rw [hm2]
  by_cases hadd : st2.addingGen = true
  · rw [if_pos hadd]
    rw [procRel_map_known m (gens.length + 1) u.relationships st1 st2 guid gid hidx h2,
      procRes_map_known m (gens.length + 1) u.resources _ st1 guid gid hidx h1full]
    exact hidx
  · rw [if_neg hadd]
    exact hidx

/-- Witness for C5 at a concrete input: updating the known identifier `K`
merges the update fields into the entity stored in generation 1 and leaves
the index entry untouched. -/
theorem updateGens_merge_existing_witness :
    ∃ gens2 m2,
      updateGens
        [{ requestSummary := "r0",
           resources := [("K", [("a", .num 1), ("b", .num 2)])],
           relationships := [] }]
        [("K", 1)]
        { resources := [("K", [("b", .num 9)]), ("N", [("c", .num 3)])],
          relationships := [] }
        "req" = .ok (gens2, m2) ∧
      lookupF m2 "K" = some 1 ∧
      getRes gens2 1 "K" =
        some (objAssign [("a", .num 1), ("b", .num 2)] [("b", .num 9)]) := by
  refine ⟨_, _, rfl, ?_⟩
  have h := updateGens_merge_existing
    [{ requestSummary := "r0",
       resources := [("K", [("a", .num 1), ("b", .num 2)])],
       relationships := [] }]
    [("K", 1)]
    { resources := [("K", [("b", .num 9)]), ("N", [("c", .num 3)])],
      relationships := [] }
    "req" _ _ "K" 1 [("a", .num 1), ("b", .num 2)] [("b", .num 9)]
    (by decide) (by rfl) (by rfl) (by rfl) rfl
  exact ⟨h.1, h.2.1⟩

/-- C7: the index consistency invariant — every identifier in `guidToGenId`
points at a generation that actually contains it among its resources or
relationships — is preserved both by `updateGens` (which indexes only the
identifiers placed in the appended generation) and by `removeGen` (which
deletes every resource and relationship key of the removed generation from
the index). -/
theorem guidToGenId_invariant_preserved :
    (∀ (gens : List Gen) (m : GuidMap) (u : UpdateObjects) (rs : String)
      (gens2 : List Gen) (m2 : GuidMap), InvMap gens m →
      updateGens gens m u rs = .ok (gens2, m2) → InvMap gens2 m2) ∧
    (∀ st st2 : RState, InvMap st.gens st.guidToGenId →
      removeGen st = .ok st2 → InvMap st2.gens st2.guidToGenId) := by
  constructor
  · intro gens m u rs gens2 m2 hInv h
    obtain ⟨st1, st2, h1, h2, hg2, hm2⟩ := updateGens_cases gens m u rs gens2 m2 h
    have hP0 : UGInv gens m
        { gens_clone := gens, map_clone := m, addingGen := false,
          ad_gen := createEmptyGen rs } :=
      ⟨rfl, fun i gen hi => ⟨gen, hi, fun x hx => hx, fun x hx => hx⟩,
        fun guid gid hlk => Or.inl hlk⟩
    have hP1 := procList_inv (UGInv gens m) _
      (fun s kv s2 hq hs => resStep_UGInv gens m s kv s2 hs hq)
      u.resources _ st1 hP0 h1
    have hP2 := procList_inv (UGInv gens m) _
      (fun s kv s2 hq hs => relStep_UGInv gens m s kv s2 hs hq)
      u.relationships st1 st2 hP1 h2
    obtain ⟨hlen, hsup, hmap⟩ := hP2
    intro guid gid hlk
    rw [hm2] at hlk
    by_cases hadd : st2.addingGen = true
    · rw [if_pos hadd] at hlk
      rcases hmap guid gid hlk with hx | ⟨hgid, hcont⟩
      · obtain ⟨h1le, gen, hgen, hc⟩ := hInv guid gid hx
        obtain ⟨gen2, hgen2, hr, hq⟩ := hsup (gid - 1) gen hgen
        refine ⟨h1le, gen2, ?_, ?_⟩
        · rw [hg2, if_pos hadd, List.getElem?_append,
            if_pos (List.getElem?_eq_some.1 hgen2).1]
          exact hgen2
        · rcases hc with hcr | hcq
          · exact Or.inl (hr _ hcr)
          · exact Or.inr (hq _ hcq)
      · refine ⟨by omega, st2.ad_gen, ?_, hcont⟩
        rw [hg2, if_pos hadd]
        have hidx : gid - 1 = st2.gens_clone.length := by omega
        rw [hidx]
        exact List.getElem?_concat_length st2.gens_clone st2.ad_gen
    · rw [if_neg hadd] at hlk
      obtain ⟨h1le, gen, hgen, hc⟩ := hInv guid gid hlk
      obtain ⟨gen2, hgen2, hr, hq⟩ := hsup (gid - 1) gen hgen
      refine ⟨h1le, gen2, ?_, ?_⟩
      · rw [hg2, if_neg hadd]
        exact hgen2
      · rcases hc with hcr | hcq
        · exact Or.inl (hr _ hcr)
        · exact Or.inr (hq _ hcq)
  · intro st st2 hInv h
    obtain ⟨removedGen, hlast, hgens, hmap, hfocus⟩ := removeGen_cases st st2 h
    intro guid gid hlk
    rw [hmap, lookupF_foldl_mapDelete] at hlk
    by_cases hq : guid ∈ removedGen.relationships.map Prod.fst
    · rw [if_pos hq] at hlk; cases hlk
    · rw [if_neg hq, lookupF_foldl_mapDelete] at hlk
      by_cases hr : guid ∈ removedGen.resources.map Prod.fst
      · rw [if_pos hr] at hlk; cases hlk
      · rw [if_neg hr] at hlk
        obtain ⟨h1le, gen, hgen, hc⟩ := hInv guid gid hlk
        have hlt : gid - 1 < st.gens.length := (List.getElem?_eq_some.1 hgen).1
        have hne : gid - 1 ≠ st.gens.length - 1 := by
          intro he
          rw [List.getLast?_eq_getElem? st.gens, ← he, hgen] at hlast
          have hgeneq : gen = removedGen := Option.some.inj hlast
          subst hgeneq
          rcases hc with hcr | hcq
          · exact hr hcr
          · exact hq hcq
        refine ⟨h1le, gen, ?_, hc⟩
        rw [hgens, List.dropLast_eq_take, List.getElem?_take, if_pos (by omega)]
        exact hgen

/-- Witness for C7: the invariant holds for a one-generation store, is
preserved across a concrete `updateGens` call that both merges a known
identifier and stages a new one, and across a concrete `removeGen` call. -/
theorem guidToGenId_invariant_preserved_witness :
    updateGens
      [{ requestSummary := "r0", resources := [("K", [("a", .num 1)])],
         relationships := [] }]
      [("K", 1)]
      { resources := [("K", [("b", .num 2)]), ("N", [("c", .num 3)])],
        relationships := [] }
      "req" = .ok
        ([{ requestSummary := "r0",
            resources := [("K", [("a", .num 1), ("b", .num 2)])],
            relationships := [] },
          { requestSummary := "req",
            resources := [("N", [("c", .num 3), ("gen", .num 2)])],
            relationships := [] }],
         [("K", 1), ("N", 2)]) ∧
    InvMap
      [{ requestSummary := "r0",
         resources := [("K", [("a", .num 1), ("b", .num 2)])],
         relationships := [] },
       { requestSummary := "req",
         resources := [("N", [("c", .num 3), ("gen", .num 2)])],
         relationships := [] }]
      [("K", 1), ("N", 2)] ∧
    removeGen
      { gens := [{ requestSummary := "r0",
                   resources := [("K", [("a", .num 1)])],
                   relationships := [] }],
        guidToGenId := [("K", 1)],
        focus := focusObj "" "" } = .ok
      { gens := [], guidToGenId := [], focus := focusObj "" "" } ∧
    InvMap ([] : List Gen) ([] : GuidMap) := by
  have hInv : InvMap
      [{ requestSummary := "r0", resources := [("K", [("a", .num 1)])],
         relationships := [] }] [("K", 1)] := by
    intro guid gid hlk
    rw [lookupF_cons] at hlk
    by_cases hk : "K" = guid
    · rw [if_pos hk] at hlk
      cases hlk
      subst hk
      exact ⟨by omega, _, rfl, Or.inl (by decide)⟩
    · rw [if_neg hk, lookupF_nil] at hlk
      cases hlk
  refine ⟨rfl, ?_, rfl, ?_⟩
  · exact guidToGenId_invariant_preserved.1 _ _
      { resources := [("K", [("b", .num 2)]), ("N", [("c", .num 3)])],
        relationships := [] }
      "req" _ _ hInv rfl
  · exact guidToGenId_invariant_preserved.2
      { gens := [{ requestSummary := "r0",
                   resources := [("K", [("a", .num 1)])],
                   relationships := [] }],
        guidToGenId := [("K", 1)],
        focus := focusObj "" "" }
      { gens := [], guidToGenId := [], focus := focusObj "" "" } hInv rfl

/-- Two focus objects agree exactly when their categories and guids do. -/
theorem focusObj_inj (c1 g1 c2 g2 : String) :
    focusObj c1 g1 = focusObj c2 g2 ↔ c1 = c2 ∧ g1 = g2 := by
  rw [focusObj, focusObj]
  constructor
  · intro h
    injection h with h1 h2
    injection h2 with h3 h4
    injection h1 with h5 h6
    injection h3 with h7 h8
    exact ⟨by injection h6, by injection h8⟩
  · rintro ⟨rfl, rfl⟩
    rfl

/-- C6: when `removeGen` removes the most recent generation, the focus is
cleared (category and guid reset to the empty string) exactly when that
generation's resources contain the focused guid; otherwise the focus state
is left unchanged. -/
theorem removeGen_focus_clearing (st st2 : RState) (removedGen : Gen)
    (hlast : st.gens.getLast? = some removedGen)
    (h : removeGen st = .ok st2) :
    (jvToPropKey (entGet st.focus "guid") ∈ removedGen.resources.map Prod.fst →
      st2.focus = focusObj "" "") ∧
    (jvToPropKey (entGet st.focus "guid") ∉ removedGen.resources.map Prod.fst →
      st2.focus = st.focus) := by
  obtain ⟨rg, hlast2, hgens, hmap, hfocus⟩ := removeGen_cases st st2 h
  rw [hlast] at hlast2
  have hrg : rg = removedGen := (Option.some.inj hlast2).symm
  subst hrg
  constructor
  · intro hmem
    rw [hfocus, if_pos ((mem_keys_iff_lookupF _ _).1 hmem)]
  · intro hnmem
    rw [hfocus, if_neg (fun hs => hnmem ((lookupF_isSome_iff _ _).1 hs))]

/-- Witness for C6: removing the only generation clears the focus when it
holds the focused resource `G`, and leaves the focus alone when the focused
guid is not in it. -/
theorem removeGen_focus_clearing_witness :
    (({ gens := [], guidToGenId := [],
        focus := focusObj "" "" } : RState).focus = focusObj "" "") ∧
    (({ gens := [], guidToGenId := [],
        focus := focusObj "platform" "X" } : RState).focus =
      ({ gens := [{ requestSummary := "r",
                    resources := [("G", [("a", .num 1)])],
                    relationships := [] }],
         guidToGenId := [("G", 1)],
         focus := focusObj "platform" "X" } : RState).focus) := by
  constructor
  · exact (removeGen_focus_clearing
      { gens := [{ requestSummary := "r",
                   resources := [("G", [("a", .num 1)])],
                   relationships := [] }],
        guidToGenId := [("G", 1)], focus := focusObj "platform" "G" }
      { gens := [], guidToGenId := [], focus := focusObj "" "" }
      { requestSummary := "r", resources := [("G", [("a", .num 1)])],
        relationships := [] }
      rfl rfl).1 (by decide)
  · exact (removeGen_focus_clearing
      { gens := [{ requestSummary := "r",
                   resources := [("G", [("a", .num 1)])],
                   relationships := [] }],
        guidToGenId := [("G", 1)], focus := focusObj "platform" "X" }
      { gens := [], guidToGenId := [], focus := focusObj "platform" "X" }
      { requestSummary := "r", resources := [("G", [("a", .num 1)])],
        relationships := [] }
      rfl rfl).2 (by decide)

/-- C10: `removeGen` faults on the empty generation list (popping yields
`undefined`, whose `resources` field the source then dereferences), and on
every non-empty list it completes and shortens `gens` by exactly one. -/
theorem removeGen_totality :
    (∀ (m : GuidMap) (f : Entity),
      removeGen { gens := [], guidToGenId := m, focus := f } = .error ()) ∧
    (∀ st : RState, st.gens ≠ [] →
      ∃ st2, removeGen st = .ok st2 ∧
        st2.gens.length = st.gens.length - 1) := by
  constructor
  · intro m f
    rfl
  · intro st hne
    cases hlast : st.gens.getLast? with
    | none =>
      rw [List.getLast?_eq_none_iff] at hlast
      exact absurd hlast hne
    | some rg =>
      refine ⟨RState.mk st.gens.dropLast
        ((rg.relationships.map Prod.fst).foldl mapDelete
          ((rg.resources.map Prod.fst).foldl mapDelete st.guidToGenId))
        (if (lookupF rg.resources
              (jvToPropKey (entGet st.focus "guid"))).isSome
          then focusObj "" "" else st.focus), ?_, ?_⟩
      · rw [removeGen, hlast]
      · exact List.length_dropLast st.gens

/-- Witness for C10: removing from a one-generation store succeeds and
leaves zero generations. -/
theorem removeGen_totality_witness :
    ∃ st2, removeGen
      { gens := [{ requestSummary := "r", resources := [],
                   relationships := [] }],
        guidToGenId := [], focus := focusObj "" "" } = .ok st2 ∧
      st2.gens.length = 0 := by
  obtain ⟨st2, hok, hlen⟩ := removeGen_totality.2
    { gens := [{ requestSummary := "r", resources := [],
                 relationships := [] }],
      guidToGenId := [], focus := focusObj "" "" }
    (List.cons_ne_nil _ _)
  refine ⟨st2, hok, ?_⟩
  rw [hlen]
  rfl

/-- C3 (defect demonstration): `changeFocusResource` compares the selected
guid against `focus.instanceGUID`, a field no `setFocus` call ever writes
(`focus` always holds `category` and `guid`), so selecting the currently
focused resource never takes the deselect branch: every successful call
leaves the whole state — in particular the focus — unchanged, and fires the
category reload instead of clearing the focus. -/
theorem changeFocusResource_refocus_not_cleared (st : RState)
    (category guid : String) (hfocus : st.focus = focusObj category guid)
    (hguid : guid ≠ "") (st2 : RState) (act : LoadAction)
    (h : changeFocusResource st guid = .ok (st2, act)) :
    st2 = st ∧ st2.focus ≠ focusObj "" "" := by
  have hne : st.focus ≠ focusObj "" "" := by
    rw [hfocus]
    intro he
    exact hguid ((focusObj_inj _ _ _ _).1 he).2
  have hclear : jsStrictEq (.str guid) (entGet st.focus "instanceGUID") = false := by
    rw [hfocus]
    rfl
  rw [changeFocusResource] at h
  rw [hclear] at h
  rw [if_neg Bool.false_ne_true] at h
  split at h
  · cases h
    exact ⟨rfl, hne⟩
  · split at h
    · cases h
    · split at h
      · cases h
      · split at h
        · cases h
          exact ⟨rfl, hne⟩
        · cases h
          exact ⟨rfl, hne⟩
        · cases h
          exact ⟨rfl, hne⟩
        · cases h
          exact ⟨rfl, hne⟩

/-- Witness for C3: with platform `PLATFORM_p` focused, selecting
`PLATFORM_p` again keeps the state (and focus) as it was. -/
theorem changeFocusResource_refocus_not_cleared_witness :
    ∃ (st2 : RState) (act : LoadAction),
      changeFocusResource
        { gens := [{ requestSummary := "r",
                     resources := [("PLATFORM_p",
                       [("category", .str "platform"),
                        ("platformName", .str "p")])],
                     relationships := [] }],
          guidToGenId := [("PLATFORM_p", 1)],
          focus := focusObj "platform" "PLATFORM_p" } "PLATFORM_p"
        = .ok (st2, act) ∧
      st2 = { gens := [{ requestSummary := "r",
                         resources := [("PLATFORM_p",
                           [("category", .str "platform"),
                            ("platformName", .str "p")])],
                         relationships := [] }],
              guidToGenId := [("PLATFORM_p", 1)],
              focus := focusObj "platform" "PLATFORM_p" } ∧
      st2.focus ≠ focusObj "" "" := by
  refine ⟨_, _, rfl, ?_⟩
  exact changeFocusResource_refocus_not_cleared _ "platform" "PLATFORM_p" rfl
    (by decide) _ _ rfl

/-- C9: mismatched scalar properties are reported as flattened dotted path
strings: `{a:1}` vs `{a:2}` yields `matched = false` with `mpn = ["a"]`,
and `{a:{b:1}}` vs `{a:{b:2}}` yields `matched = false` with
`mpn = ["a.b"]`. -/
theorem compareConfigurations_dotted_paths :
    compareConfigurations (.obj [("a", .num 1)]) (.obj [("a", .num 2)]) [] []
      = .ok (false, ["a"]) ∧
    compareConfigurations (.obj [("a", .obj [("b", .num 1)])])
      (.obj [("a", .obj [("b", .num 2)])]) [] [] = .ok (false, ["a.b"]) := by
  constructor
  · simp [compareConfigurations, comparePropsGo, objKeys, objAssignKeys,
      sortStrings, insertSorted, jget, lookupF, typeOf, jsStrictEq,
      excludeProps, flattenPropertyPath]
  · simp [compareConfigurations, comparePropsGo, objKeys, objAssignKeys,
      sortStrings, insertSorted, jget, lookupF, typeOf, jsStrictEq,
      excludeProps, flattenPropertyPath]

/-- C2 (defect demonstration): the aggregated key list is built with
`Object.assign([], activeConfigPropNames, storedConfigPropNames)`, which
overwrites positionally instead of forming a union, so a key of
`activeConfig` can escape comparison entirely.  Here the active key `"a"`
(value 1, stored side `undefined` — a mismatch a union would report) is
never examined: the result lists only `"b"`. -/
theorem compareConfigurations_drops_active_key :
    compareConfigurations (.obj [("b", .num 2)]) (.obj [("a", .num 1)]) [] []
      = .ok (false, ["b"]) := by
  simp [compareConfigurations, comparePropsGo, objKeys, objAssignKeys,
    sortStrings, insertSorted, jget, lookupF, typeOf, jsStrictEq,
    excludeProps, flattenPropertyPath]

/-- C4 counterexample: for the JSON-compatible object `{a: null}`, the
reflexive comparison does not return `matched = true` — it throws, because
`typeof null` is `"object"` so the comparator recurses into `null` and
`Object.keys(null)` raises a `TypeError`. -/
theorem compareConfigurations_refl_null_counterexample :
    compareConfigurations (.obj [("a", .null)]) (.obj [("a", .null)]) [] []
      = .error () := by
  simp [compareConfigurations, comparePropsGo, objKeys, objAssignKeys,
    sortStrings, insertSorted, jget, lookupF, typeOf, jsStrictEq,
    excludeProps, flattenPropertyPath]

mutual

/-- A JSON value (no `undefined`) containing no `null` anywhere. -/
def nullFreeJson : JValue → Bool
  | .undefined => false
  | .null => false
  | .bool _ => true
  | .num _ => true
  | .str _ => true
  | .arr elems => nullFreeArr elems
  | .obj fields => nullFreeObj fields

/-- All elements of the list are null-free JSON values. -/
def nullFreeArr : List JValue → Bool
  | [] => true
  | v :: rest => nullFreeJson v && nullFreeArr rest

/-- All field values of the list are null-free JSON values. -/
def nullFreeObj : List (String × JValue) → Bool
  | [] => true
  | kv :: rest => nullFreeJson kv.2 && nullFreeObj rest

end

/-- A property looked up in a null-free field list is null-free. -/
theorem nullFreeObj_lookupF (fields : List (String × JValue)) (k : String)
    (v : JValue) (hl : lookupF fields k = some v)
    (hn : nullFreeObj fields = true) : nullFreeJson v = true := by
  induction fields with
  | nil => cases hl
  | cons kv rest ih =>
    rw [lookupF_cons] at hl
    rw [nullFreeObj, Bool.and_eq_true] at hn
    by_cases hk : kv.1 = k
    · rw [if_pos hk] at hl
      rw [← Option.some.inj hl]
      exact hn.1
    · rw [if_neg hk] at hl
      exact ih hl hn.2

/-- An element of a null-free element list is null-free. -/
theorem nullFreeArr_getElem (elems : List JValue) (i : Nat) (v : JValue)
    (hl : elems[i]? = some v) (hn : nullFreeArr elems = true) :
    nullFreeJson v = true := by
  induction elems generalizing i with
  | nil => cases hl
  | cons w rest ih =>
    rw [nullFreeArr, Bool.and_eq_true] at hn
    cases i with
    | zero =>
      rw [List.getElem?_cons_zero] at hl
      rw [← Option.some.inj hl]
      exact hn.1
    | succ j =>
      rw [List.getElem?_cons_succ] at hl
      exact ih j hl hn.2

/-- An object-typed property of a null-free value is itself null-free. -/
theorem nullFreeJson_jget (v : JValue) (k : String)
    (ht : typeOf (jget v k) = "object") (hn : nullFreeJson v = true) :
    nullFreeJson (jget v k) = true := by
  cases v with
  | undefined => simp [jget, typeOf] at ht
  | null => rw [nullFreeJson] at hn; cases hn
  | bool b => simp [jget, typeOf] at ht
  | num n => simp [jget, typeOf] at ht
  | str s =>
    rw [jget] at ht ⊢
    by_cases hl : k = "length"
    · simp [hl, typeOf] at ht
    · simp only [hl, if_false] at ht ⊢
      cases hi : strToIndex k with
      | none => simp [hi, typeOf] at ht
      | some i =>
        simp only [hi] at ht ⊢
        cases hc : s.data[i]? with
        | none => simp [hc, typeOf] at ht
        | some c => simp [hc, typeOf] at ht
  | arr elems =>
    rw [jget] at ht ⊢
    by_cases hl : k = "length"
    · simp [hl, typeOf] at ht
    · simp only [hl, if_false] at ht ⊢
      cases hi : strToIndex k with
      | none => simp [hi, typeOf] at ht
      | some i =>
        simp only [hi] at ht ⊢
        cases hc : elems[i]? with
        | none => simp [hc, typeOf] at ht
        | some w =>
          simp only [hc]
          rw [nullFreeJson] at hn
          exact nullFreeArr_getElem elems i w hc hn
  | obj fields =>
    rw [jget] at ht ⊢
    cases hl : lookupF fields k with
    | none => simp [hl, typeOf] at ht
    | some w =>
      simp only [hl]
      rw [nullFreeJson] at hn
      exact nullFreeObj_lookupF fields k w hl hn

/-- `Object.keys` succeeds on every null-free JSON value. -/
theorem objKeys_ok_of_nullFree (v : JValue) (hn : nullFreeJson v = true) :
    ∃ names, objKeys v = .ok names := by
  cases v with
  | undefined => rw [nullFreeJson] at hn; cases hn
  | null => rw [nullFreeJson] at hn; cases hn
  | bool b => exact ⟨[], rfl⟩
  | num n => exact ⟨[], rfl⟩
  | str s => exact ⟨_, rfl⟩
  | arr elems => exact ⟨_, rfl⟩
  | obj fields => exact ⟨_, rfl⟩

/-- Strict equality is reflexive on values that are not object-typed. -/
theorem jsStrictEq_refl_of_not_object (v : JValue)
    (ht : typeOf v ≠ "object") : jsStrictEq v v = true := by
  cases v with
  | undefined => rfl
  | null => exact absurd rfl ht
  | bool b => simp [jsStrictEq]
  | num n => simp [jsStrictEq]
  | str s => simp [jsStrictEq]
  | arr elems => exact absurd rfl ht
  | obj fields => exact absurd rfl ht

/-- The key loop of the comparator is the identity on the accumulator when
both configurations are the same value and every recursive comparison of an
object-typed property returns a clean match. -/
theorem comparePropsGo_refl (X : JValue) (path : List String)
    (keys : List String)
    (hnext : ∀ p, typeOf (jget X p) = "object" →
      ∀ mpn2, compareConfigurations (jget X p) (jget X p) (path ++ [p]) mpn2
        = .ok (true, mpn2)) :
    ∀ acc, comparePropsGo X X path keys acc = .ok acc := by
  induction keys with
  | nil =>
    intro acc
    simp only [comparePropsGo]
  | cons p rest ih =>
    intro acc
    obtain ⟨mtd, mpn⟩ := acc
    rw [comparePropsGo]
    by_cases hex : p ∈ excludeProps
    · rw [if_pos hex]
      exact ih (mtd, mpn)
    · rw [if_neg hex]
      by_cases hty : typeOf (jget X p) = "object"
      · rw [dif_pos hty, hnext p hty mpn]
        show comparePropsGo X X path rest (mtd && true, mpn) = .ok (mtd, mpn)
        rw [Bool.and_true]
        exact ih (mtd, mpn)
      · rw [dif_neg hty,
          if_pos (jsStrictEq_refl_of_not_object _ hty)]
        exact ih (mtd, mpn)

/-- Size-bounded form of the reflexivity of the comparator on null-free
JSON values. -/
theorem compareConfigurations_refl_aux : ∀ (n : Nat) (X : JValue),
    sizeOf X < n → nullFreeJson X = true → ∀ path mpn,
    compareConfigurations X X path mpn = .ok (true, mpn) := by
  intro n
  induction n with
  | zero =>
    intro X h
    omega
  | succ n ih =>
    intro X hlt hnf path mpn
    obtain ⟨names, hnames⟩ := objKeys_ok_of_nullFree X hnf
    rw [compareConfigurations, hnames]
    show comparePropsGo X X path
      (sortStrings (objAssignKeys names names)) (true, mpn) = .ok (true, mpn)
    apply comparePropsGo_refl
    intro p hty mpn2
    have hsz := sizeOf_jget_lt hty
    exact ih (jget X p) (by omega) (nullFreeJson_jget X p hty hnf)
      (path ++ [p]) mpn2

/-- C4 (amended): for every JSON-compatible value `X` that contains no
`null`, `compareConfigurations(X, X, [], mpn)` returns `matched = true` and
leaves the mismatched-property-name list `mpn` untouched.  (The original
claim over all JSON-compatible `X` fails: see
`compareConfigurations_refl_null_counterexample`.) -/
theorem compareConfigurations_refl_nullfree (X : JValue)
    (h : nullFreeJson X = true) (mpn : List String) :
    compareConfigurations X X [] mpn = .ok (true, mpn) :=
  compareConfigurations_refl_aux (sizeOf X + 1) X (Nat.lt_succ_self _) h [] mpn

/-- Witness for the amended C4 at a concrete nested null-free object. -/
theorem compareConfigurations_refl_nullfree_witness :
    nullFreeJson (.obj [("a", .num 1),
      ("b", .arr [.str "x", .bool true])]) = true ∧
    compareConfigurations
      (.obj [("a", .num 1), ("b", .arr [.str "x", .bool true])])
      (.obj [("a", .num 1), ("b", .arr [.str "x", .bool true])]) [] []
      = .ok (true, []) := by
  have hn : nullFreeJson (.obj [("a", .num 1),
      ("b", .arr [.str "x", .bool true])]) = true := by
    simp [nullFreeJson, nullFreeArr, nullFreeObj]
  exact ⟨hn, compareConfigurations_refl_nullfree _ hn []⟩

/-- C8: the recursion decision of the comparator is made from
`typeof activeConfig[propName]` alone.  A property present only on
`storedConfig` reads as `undefined` on the active side, so it is compared
as a scalar (`storedConfig[propName] === undefined`, which fails) and is
never recursed into, even when its stored value is an arbitrary object:
the mismatch list records the flat path `[p]`, not any path inside the
stored object. -/
theorem compareConfigurations_storedOnly_scalar (p : String)
    (fs : List (String × JValue)) (hp : p ≠ "class") :
    compareConfigurations (.obj [(p, .obj fs)]) (.obj []) [] []
      = .ok (false, [p]) := by
  simp [compareConfigurations, comparePropsGo, objKeys, objAssignKeys,
    sortStrings, insertSorted, jget, lookupF_cons, typeOf, jsStrictEq,
    excludeProps, flattenPropertyPath, hp]

/-- Witness for C8: the stored-only property `a` with object value
`{b: 1}` is reported as the flat mismatch `"a"`, not recursed into. -/
theorem compareConfigurations_storedOnly_scalar_witness :
    ("a" : String) ≠ "class" ∧
    compareConfigurations (.obj [("a", .obj [("b", .num 1)])]) (.obj []) [] []
      = .ok (false, ["a"]) :=
  ⟨by decide, compareConfigurations_storedOnly_scalar "a" [("b", .num 1)]
    (by decide)⟩

end Egeria
